import Mathlib

/-!
# Single-cycle MIPS CPU simulator (`CPU.h`, `main.cpp`)

A shallow embedding of the class `CPU` of `CPU.h`.  The object state becomes the
structure `CPU`; every member function becomes a function on that structure.

Conventions of the embedding:

* `int` is modelled by `Int`; the result of `+`, `-`, `<<` and `++` on `int` is
  reduced to the 32-bit two's-complement range by `wrap32`.
* `std::string` is modelled by `List Char`.
* A member function that can throw (`substr` past the end, `stoi` on a
  non-digit), index a `std::vector` out of range, read an uninitialised local or
  convert an out-of-range `double` to `int` returns `Option`; `none` stands for
  "no defined result".
* The `double` arithmetic of `convertBinaryStrToInt` and `signExtended` is exact
  on the strings they are applied to (at most 32 digits), so it is modelled by
  exact integer arithmetic followed by the conversion to `int`.
* The program file read by `fetch` is the list of its lines.
* A data member the constructor does not assign holds an unspecified value of
  its type in the constructed object; the constructor model takes that value as
  an argument.
-/

namespace MipsCpu

/-! ## Constants (`#define`s of `CPU.h`) -/

def NUM_REGS : Nat := 32
def NUM_MEMS : Nat := 32
def AND : Int := 0
def OR : Int := 1
def ADD : Int := 2
def SUB : Int := 6
def SLT : Int := 7
def NOR : Int := 12
def R_TYPE : Int := 0
def LW : Int := 35
def SW : Int := 43
def BEQ : Int := 4
def J : Int := 2
def JAL : Int := 3
def JR : Int := 100
def FUNC_ADD : Int := 32
def FUNC_SUB : Int := 34
def FUNC_AND : Int := 36
def FUNC_OR : Int := 37
def FUNC_SLT : Int := 42
def FUNC_NOR : Int := 39
def FUNC_JR : Int := 8
def RA : Int := 31

/-! ## Machine integers, vectors and strings -/

/-- The 32-bit two's-complement value of an exact integer result. -/
def wrap32 (x : Int) : Int := (x + 2147483648) % 4294967296 - 2147483648

/-- Conversion of an exactly computed `double` (an integer here) to `int`:
defined only when the value fits. -/
def doubleToInt (x : Int) : Option Int :=
  if -2147483648 ≤ x ∧ x < 2147483648 then some x else none

/-- Reading `v[i]` of a `std::vector<int>`; `none` when out of range. -/
def vecGet (v : List Int) (i : Int) : Option Int :=
  if 0 ≤ i then v[i.toNat]? else none

/-- The assignment `v[i] = x` on a `std::vector<int>`; `none` when out of range. -/
def vecSet (v : List Int) (i : Int) (x : Int) : Option (List Int) :=
  if 0 ≤ i ∧ i.toNat < v.length then some (v.set i.toNat x) else none

/-- The call `str.substr(pos, len)`: throws when `pos` is past the end. -/
def substr (str : List Char) (pos len : Nat) : Option (List Char) :=
  if pos ≤ str.length then some ((str.drop pos).take len) else none

/-- The call `std::stoi` on a one-character string: the digit value, or an
exception for any other character. -/
def stoi1 (ch : Char) : Option Int :=
  if ch.isDigit then some ((ch.toNat : Int) - 48) else none

/-- The string of `std::bitset<n>(v).to_string()`: the low `n` bits of `v`,
most significant first. -/
def bitsetToString : Nat → Int → List Char
  | 0, _ => []
  | n + 1, v => (if (v / 2 ^ n) % 2 = 1 then '1' else '0') :: bitsetToString n v

/-! ## The CPU object -/

/-- The data members of `class CPU` (the two name tables used only for
printing are left out). -/
structure CPU where
  total_clock_cycles : Int
  pc : Int
  next_pc : Int
  branch_target : Int
  jump_target : Int
  alu_op : Int
  alu_zero : Int
  jump : Int
  regdest : Int
  alusrc : Int
  memtoreg : Int
  regwrite : Int
  memread : Int
  memwrite : Int
  branch : Int
  jlink : Int
  insttype1 : Bool
  insttype0 : Bool
  writeToReg : Int
  regtopc : Int
  registerfile : List Int
  touched_register : Bool × Int
  d_mem : List Int
  touched_memory : Bool × Int

/-- The constructor `CPU::CPU()`.  It assigns every data member except the two
`bool`s `insttype1` and `insttype0`, so the values these two hold in the
constructed object are not fixed by the program; they are the two arguments. -/
def CPU.construct (insttype1 insttype0 : Bool) : CPU :=
  { total_clock_cycles := 0, pc := 0, next_pc := 0, branch_target := 0,
    jump_target := 0, alu_op := 0, alu_zero := 0, jump := 0, regdest := 0,
    alusrc := 0, memtoreg := 0, regwrite := 0, memread := 0, memwrite := 0,
    branch := 0, jlink := 0, insttype1 := insttype1, insttype0 := insttype0,
    writeToReg := 0, regtopc := 0,
    registerfile := List.replicate NUM_REGS 0,
    touched_register := (false, 0),
    d_mem := List.replicate NUM_MEMS 0,
    touched_memory := (false, 0) }

/-- The constructed object in which the two members the constructor leaves
unassigned both read `false`; the other three possible objects are
`CPU.construct` at the other arguments. -/
def CPU.new : CPU := CPU.construct false false

/-- `CPU::getTotalClockCycles`. -/
def getTotalClockCycles (c : CPU) : Int := c.total_clock_cycles

/-- `CPU::getPC`. -/
def getPC (c : CPU) : Int := c.pc

/-- `CPU::registerWasTouched`. -/
def registerWasTouched (c : CPU) : Bool := c.touched_register.1

/-- `CPU::memoryWasTouched`. -/
def memoryWasTouched (c : CPU) : Bool := c.touched_memory.1

/-- `CPU::resetTouchedRegister`. -/
def resetTouchedRegister (c : CPU) : CPU :=
  { c with touched_register := (false, c.touched_register.2) }

/-- `CPU::resetTouchedMemory`. -/
def resetTouchedMemory (c : CPU) : CPU :=
  { c with touched_memory := (false, c.touched_memory.2) }

/-- `CPU::updateRegisterFile`. -/
def updateRegisterFile (c : CPU) (i val : Int) : Option CPU := do
  let r ← vecSet c.registerfile i val
  pure { c with registerfile := r }

/-- `CPU::updateMemory`. -/
def updateMemory (c : CPU) (i val : Int) : Option CPU := do
  let m ← vecSet c.d_mem i val
  pure { c with d_mem := m }

/-! ## Helpers of the datapath -/

/-- The loop of `CPU::convertBinaryStrToInt`, with the accumulator `val`:
each step adds `stoi(digit) * pow(2, remaining)` in `double` and converts the
sum back to `int`. -/
def convertLoop : List Char → Int → Option Int
  | [], val => some val
  | ch :: rest, val => do
    let d ← stoi1 ch
    let v ← doubleToInt (val + d * 2 ^ rest.length)
    convertLoop rest v

/-- `CPU::convertBinaryStrToInt`. -/
def convertBinaryStrToInt (str : List Char) : Option Int :=
  convertLoop str 0

/-- `CPU::shiftLeftTwo`. -/
def shiftLeftTwo (val : Int) : Int := wrap32 (val * 4)

/-- `CPU::signExtended`. -/
def signExtended (signextend : Int) : Option Int := do
  let bt := bitsetToString 16 signextend
  let hd ← substr bt 0 1
  let bin_str :=
    if hd = ['1'] then "1111111111111111".toList ++ bt
    else "0000000000000000".toList ++ bt
  let tl ← substr bin_str 1 (bin_str.length - 1)
  let leading_bit_stripped_off ← convertBinaryStrToInt tl
  let hd2 ← substr bin_str 0 1
  if hd2 = ['1'] then do
    let leading_bit ← doubleToInt (-1 * 2 ^ (bin_str.length - 1))
    pure (wrap32 (leading_bit + leading_bit_stripped_off))
  else
    pure leading_bit_stripped_off

/-- `CPU::fourMostSigFromPC`. -/
def fourMostSigFromPC (c : CPU) : Option Int := do
  let str := bitsetToString 32 c.pc
  let str ← substr str 0 4
  convertBinaryStrToInt (str ++ "0000000000000000000000000000".toList)

/-- `CPU::controlunit`. -/
def controlunit (c : CPU) (opcode : Int) : CPU :=
  if opcode = R_TYPE then
    { c with regdest := 1, regwrite := 1, insttype1 := true,
             jump := 0, alusrc := 0, memtoreg := 0, memread := 0, memwrite := 0,
             branch := 0, insttype0 := false, jlink := 0 }
  else if opcode = LW then
    { c with alusrc := 1, memtoreg := 1, regwrite := 1, memread := 1,
             jump := 0, regdest := 0, memwrite := 0, branch := 0,
             insttype1 := false, insttype0 := false, jlink := 0 }
  else if opcode = SW then
    { c with alusrc := 1, memwrite := 1,
             jump := 0, regwrite := 0, memread := 0, branch := 0,
             insttype1 := false, insttype0 := false, jlink := 0 }
  else if opcode = BEQ then
    { c with branch := 1, insttype0 := true,
             jump := 0, alusrc := 0, regwrite := 0, memread := 0, memwrite := 0,
             insttype1 := false, jlink := 0 }
  else if opcode = J then
    { c with jump := 1,
             regwrite := 0, memread := 0, memwrite := 0, branch := 0, jlink := 0 }
  else if opcode = JAL then
    { c with jump := 1, regwrite := 1, jlink := 1,
             memread := 0, memwrite := 0, branch := 0 }
  else c

/-- `CPU::alucontrol`. -/
def alucontrol (c : CPU) (insttype func : Int) : CPU :=
  if insttype = 0 then { c with alu_op := ADD }
  else if insttype = 1 then { c with alu_op := SUB }
  else if insttype = 2 then
    if func = FUNC_ADD then { c with alu_op := ADD }
    else if func = FUNC_SUB then { c with alu_op := SUB }
    else if func = FUNC_AND then { c with alu_op := AND }
    else if func = FUNC_OR then { c with alu_op := OR }
    else if func = FUNC_SLT then { c with alu_op := SLT }
    else if func = FUNC_NOR then { c with alu_op := NOR }
    else if func = FUNC_JR then { c with alu_op := JR, regtopc := 1 }
    else c
  else c

/-- `CPU::writeback`. -/
def writeback (c : CPU) (result d_memval : Int) : Option CPU :=
  if c.regwrite ≠ 0 then
    if c.memtoreg ≠ 0 then do
      let r ← vecSet c.registerfile c.writeToReg d_memval
      pure { c with registerfile := r, touched_register := (true, c.writeToReg),
                    total_clock_cycles := wrap32 (c.total_clock_cycles + 1) }
    else if c.jlink ≠ 0 then do
      let r ← vecSet c.registerfile c.writeToReg c.next_pc
      pure { c with registerfile := r, touched_register := (true, c.writeToReg) }
    else do
      let r ← vecSet c.registerfile c.writeToReg result
      pure { c with registerfile := r, touched_register := (true, c.writeToReg),
                    total_clock_cycles := wrap32 (c.total_clock_cycles + 1) }
  else
    some { c with total_clock_cycles := wrap32 (c.total_clock_cycles + 1) }

/-- `CPU::mem`. -/
def mem (c : CPU) (alu_result rt : Int) : Option CPU :=
  if c.memread ≠ 0 then do
    let address := alu_result
    let dataAtMemoryIndex := Int.tdiv address 4
    let v ← vecGet c.d_mem dataAtMemoryIndex
    writeback c alu_result v
  else if c.memwrite ≠ 0 then do
    let address := alu_result
    let dataAtMemoryIndex := Int.tdiv address 4
    let m ← vecSet c.d_mem dataAtMemoryIndex rt
    pure { c with d_mem := m, touched_memory := (true, dataAtMemoryIndex),
                  total_clock_cycles := wrap32 (c.total_clock_cycles + 1) }
  else
    writeback c alu_result 999

/-- The ALU of `CPU::execute`: the chain of `if (alu_op == ...)`; `none` when no
branch assigns `alu_result`. -/
def aluResult (alu_op alu_operand1 alu_operand2 : Int) : Option Int :=
  if alu_op = AND then some (Int.land alu_operand1 alu_operand2)
  else if alu_op = OR then some (Int.lor alu_operand1 alu_operand2)
  else if alu_op = ADD then some (wrap32 (alu_operand1 + alu_operand2))
  else if alu_op = SUB then some (wrap32 (alu_operand1 - alu_operand2))
  else if alu_op = SLT then some (if alu_operand1 < alu_operand2 then 1 else 0)
  else if alu_op = NOR then some (Int.not (Int.lor alu_operand1 alu_operand2))
  else none

/-- `CPU::execute`. -/
def execute (c : CPU) (signextend rs rt funct : Int) : Option CPU :=
  let insttype : Int := (if c.insttype1 then 1 else 0) * 2 + (if c.insttype0 then 1 else 0) * 1
  let c := alucontrol c insttype funct
  if c.regtopc ≠ 0 then
    some { c with pc := rs }
  else
    let alu_operand1 := rs
    let alu_operand2 := if c.alusrc ≠ 0 then signextend else rt
    match aluResult c.alu_op alu_operand1 alu_operand2 with
    | none => none
    | some alu_result =>
      if alu_result = 0 then
        let c := { c with alu_zero := 1 }
        if c.branch ≠ 0 then
          some { c with branch_target := wrap32 (shiftLeftTwo signextend + c.next_pc),
                        total_clock_cycles := wrap32 (c.total_clock_cycles + 1) }
        else
          mem c alu_result rt
      else
        mem { c with alu_zero := 0 } alu_result rt

/-- The fields read from the instruction string at the top of `CPU::decode`. -/
structure Fields where
  opcode : Int
  rs : Int
  rt : Int
  rd : Int
  shamt : Int
  funct : Int
  imm : Int
  addr : Int

/-- One `convertBinaryStrToInt(str.substr(pos, len))` of `CPU::decode`. -/
def field (str : List Char) (pos len : Nat) : Option Int :=
  match substr str pos len with
  | none => none
  | some s => convertBinaryStrToInt s

/-- The eight `convertBinaryStrToInt(str.substr(..))` calls of `CPU::decode`. -/
def decodeFields (str : List Char) : Option Fields :=
  match field str 0 6, field str 6 5, field str 11 5, field str 16 5,
        field str 21 5, field str 26 6, field str 16 16, field str 6 26 with
  | some opcode, some rs, some rt, some rd, some shamt, some funct, some imm, some addr =>
    some { opcode := opcode, rs := rs, rt := rt, rd := rd, shamt := shamt,
           funct := funct, imm := imm, addr := addr }
  | _, _, _, _, _, _, _, _ => none

/-- The body of `CPU::decode` after the fields are read.  The `if (regdest)` mux
that assigns `writeToReg` is written as one assignment of a conditional value. -/
def decodeBody (c : CPU) (f : Fields) : Option CPU := do
  let c := controlunit c f.opcode
  let c := { c with regtopc := 0 }
  let c := { c with writeToReg := if c.regdest ≠ 0 then f.rd else f.rt }
  let imm ← signExtended f.imm
  let top ← fourMostSigFromPC c
  let c := { c with jump_target := wrap32 (shiftLeftTwo f.addr + top) }
  if c.jump ≠ 0 then
    if c.jlink ≠ 0 then do
      let c := { c with writeToReg := RA }
      let c ← writeback c c.next_pc 999
      pure { c with pc := c.jump_target,
                    total_clock_cycles := wrap32 (c.total_clock_cycles + 1) }
    else
      pure c
  else do
    let a ← vecGet c.registerfile f.rs
    let b ← vecGet c.registerfile f.rt
    execute c imm a b f.funct

/-- `CPU::decode`. -/
def decode (c : CPU) (str : List Char) : Option CPU := do
  let f ← decodeFields str
  decodeBody c f

/-- The `while` loop of `CPU::fetch`: `k` more calls of `getline` on the rest
of the file; `none` when a call fails (end of file), otherwise the last line
read (`str` when there was no call). -/
def readLines : Nat → List (List Char) → List Char → Option (List Char)
  | 0, _, str => some str
  | _ + 1, [], _ => none
  | k + 1, line :: rest, _ => readLines k rest line

/-- `CPU::fetch`, the cycle step, on the file given by its lines.  The result is
`none` when the step has no defined result, otherwise the returned `bool` and
the state of the object afterwards. -/
def fetch (c : CPU) (file : List (List Char)) : Option (Bool × CPU) :=
  let c := resetTouchedMemory (resetTouchedRegister c)
  match readLines (Int.tdiv c.pc 4 + 1).toNat file [] with
  | none => some (false, c)
  | some str =>
    let c := { c with next_pc := wrap32 (c.pc + 4) }
    match decode c str with
    | none => none
    | some c =>
      if c.regtopc ≠ 0 then
        some (true, { c with total_clock_cycles := wrap32 (c.total_clock_cycles + 1) })
      else if c.jump ≠ 0 then
        if c.jlink = 0 then
          some (true, { c with pc := c.jump_target,
                               total_clock_cycles := wrap32 (c.total_clock_cycles + 1) })
        else
          some (true, c)
      else if c.alu_zero ≠ 0 ∧ c.branch ≠ 0 then
        some (true, { c with pc := c.branch_target })
      else
        some (true, { c with pc := c.next_pc })

/-! ## Specification-side notions -/

/-- An instruction line as the input contract asks for it: exactly 32
characters, each `'0'` or `'1'`. -/
def IsInstruction (str : List Char) : Prop :=
  str.length = 32 ∧ ∀ ch ∈ str, ch = '0' ∨ ch = '1'

instance (str : List Char) : Decidable (IsInstruction str) := by
  unfold IsInstruction; infer_instance

/-- The number written by a list of binary digits, most significant first. -/
def bitsValue : List Char → Int
  | [] => 0
  | ch :: rest => (if ch = '1' then 1 else 0) * 2 ^ rest.length + bitsValue rest

/-- The two's-complement value of a 16-bit pattern given as `0 ≤ imm < 65536`. -/
def signext16 (imm : Int) : Int := if imm < 32768 then imm else imm - 65536

/-- The value of register `i` (0 when `i` is not a register index). -/
def CPU.reg (c : CPU) (i : Int) : Int := (vecGet c.registerfile i).getD 0

/-- The data-memory word of index `i` (0 when `i` is not a word index). -/
def CPU.word (c : CPU) (i : Int) : Int := (vecGet c.d_mem i).getD 0

/-- A 32-bit `int` value. -/
def IsInt32 (x : Int) : Prop := -2147483648 ≤ x ∧ x < 2147483648

instance (x : Int) : Decidable (IsInt32 x) := by unfold IsInt32; infer_instance

/-- The states the claims range over: both vectors have their 32 entries, the
registers hold 32-bit values and `pc` is a non-negative 32-bit value. -/
def WellFormed (c : CPU) : Prop :=
  c.registerfile.length = NUM_REGS ∧ c.d_mem.length = NUM_MEMS ∧
  (∀ x ∈ c.registerfile, IsInt32 x) ∧ 0 ≤ c.pc ∧ c.pc < 2147483648

instance (c : CPU) : Decidable (WellFormed c) := by unfold WellFormed; infer_instance

/-- The operation an R-type instruction with function code `funct` performs on
the values `a` of `rs` and `b` of `rt`. -/
def rtypeOp (funct a b : Int) : Int :=
  if funct = 32 then wrap32 (a + b)
  else if funct = 34 then wrap32 (a - b)
  else if funct = 36 then Int.land a b
  else if funct = 37 then Int.lor a b
  else if funct = 42 then (if a < b then 1 else 0)
  else Int.not (Int.lor a b)

/-- The ALU operation code `alucontrol` selects for an R-type function code. -/
def rtypeAluOp (funct : Int) : Int :=
  if funct = 32 then ADD else if funct = 34 then SUB else if funct = 36 then AND
  else if funct = 37 then OR else if funct = 42 then SLT else NOR

/-- The control signals that `controlunit` assigns, as one vector: `jump`,
`regdest`, `alusrc`, `memtoreg`, `regwrite`, `memread`, `memwrite`, `branch`,
`jlink`, then `insttype1` and `insttype0`. -/
def controlSignals (c : CPU) : List Int × Bool × Bool :=
  ([c.jump, c.regdest, c.alusrc, c.memtoreg, c.regwrite, c.memread, c.memwrite,
    c.branch, c.jlink], c.insttype1, c.insttype0)

/-! ## Example programs and states -/

/-- The line `ADD $t3, $t1, $t2`. -/
def addLine : List Char := "00000001001010100101100000100000".toList

/-- A fresh CPU pre-loaded with `$t1 = 5` and `$t2 = 7`. -/
def addState : CPU :=
  { CPU.new with registerfile := (CPU.new.registerfile.set 9 5).set 10 7 }

/-- The line `LW $t0, 0($zero)`. -/
def lwLine : List Char := "10001100000010000000000000000000".toList

/-- The line `JAL 2`. -/
def jalLine : List Char := "00001100000000000000000000000010".toList

/-- The two-line program `LW $t0, 0($zero); JAL 2`. -/
def lwJalProgram : List (List Char) := [lwLine, jalLine]

/-- The first `k` calls of `fetch` made by the loop of `main`, when each of
them returns `true`. -/
def runCycles (file : List (List Char)) : Nat → CPU → Option CPU
  | 0, c => some c
  | k + 1, c =>
    match fetch c file with
    | some (true, c') => runCycles file k c'
    | _ => none

/-- The line `J 4`. -/
def jLine : List Char := "00001000000000000000000000000100".toList

/-- The line `BEQ $zero, $zero, 3`. -/
def beqLine : List Char := "00010000000000000000000000000011".toList

/-- The line `JR $ra`. -/
def jrLine : List Char := "00000011111000000000000000001000".toList

/-- The line `SW $t0, 28($zero)`. -/
def swLine : List Char := "10101100000010000000000000011100".toList

/-- A fresh CPU pre-loaded with `$t0 = 99`. -/
def swState : CPU := { CPU.new with registerfile := CPU.new.registerfile.set 8 99 }

/-- A fresh CPU pre-loaded with `$ra = 8`. -/
def jrState : CPU := { CPU.new with registerfile := CPU.new.registerfile.set 31 8 }

/-- A fresh CPU pre-loaded with the memory word of index 0 set to 77. -/
def lwState : CPU := { CPU.new with d_mem := CPU.new.d_mem.set 0 77 }

/-- A fresh CPU whose `pc` has been moved to 4. -/
def jState : CPU := { CPU.new with pc := 4 }

/-- The possible side effects of one cycle relative to the register file `R` and
data memory `M` it started from: nothing written and both flags clear; or one
register written, recorded as touched, with the memory flag clear; or one
memory word written, recorded as touched, with the register flag clear. -/
def OneEffect (R M : List Int) (c' : CPU) : Prop :=
  (c'.touched_register.1 = false ∧ c'.touched_memory.1 = false ∧
    c'.registerfile = R ∧ c'.d_mem = M) ∨
  (c'.touched_register.1 = true ∧ c'.touched_memory.1 = false ∧ c'.d_mem = M ∧
    ∃ v, vecSet R c'.touched_register.2 v = some c'.registerfile) ∨
  (c'.touched_register.1 = false ∧ c'.touched_memory.1 = true ∧ c'.registerfile = R ∧
    ∃ v, vecSet M c'.touched_memory.2 v = some c'.d_mem)

/-- A line whose opcode field is 1, which is none of the six supported opcodes;
all other bits are 0. -/
def opcodeOneLine : List Char := "00000100000000000000000000000000".toList

/-- The line `ADD $zero, $t1, $t2`. -/
def addToZeroLine : List Char := "00000001001010100000000000100000".toList

/-- The line `LW $zero, 0($zero)`. -/
def lwToZeroLine : List Char := "10001100000000000000000000000000".toList

/-- The states `main` can hand to the first cycle: a freshly constructed CPU,
whatever its two unassigned members hold, on which `updateRegisterFile` and
`updateMemory` were called any number of times with `int` values. -/
inductive Seeded : CPU → Prop
  | fresh (insttype1 insttype0 : Bool) : Seeded (CPU.construct insttype1 insttype0)
  | register (c c' : CPU) (i val : Int) :
      Seeded c → IsInt32 val → updateRegisterFile c i val = some c' → Seeded c'
  | memory (c c' : CPU) (i val : Int) :
      Seeded c → IsInt32 val → updateMemory c i val = some c' → Seeded c'

/-- The line `LW $t0, 28($zero)`. -/
def lwBackLine : List Char := "10001100000010000000000000011100".toList

/-- The instruction with fields `f` is one of the twelve supported ones (R-type
with function code 32, 34, 36, 37, 42, 39 or 8; `LW`; `SW`; `BEQ`; `J`; `JAL`)
and, when it is `LW` or `SW`, its memory index `(R[rs] + signext(imm)) / 4`
(truncated toward zero, as the code computes it) in state `c` is within
`0 .. 31`. -/
def Supported (c : CPU) (f : Fields) : Prop :=
  (f.opcode = 0 ∧ (f.funct = 32 ∨ f.funct = 34 ∨ f.funct = 36 ∨ f.funct = 37 ∨
    f.funct = 42 ∨ f.funct = 39 ∨ f.funct = 8)) ∨
  ((f.opcode = 35 ∨ f.opcode = 43) ∧
    0 ≤ Int.tdiv (c.reg f.rs + signext16 f.imm) 4 ∧
    Int.tdiv (c.reg f.rs + signext16 f.imm) 4 < 32) ∨
  f.opcode = 4 ∨ f.opcode = 2 ∨ f.opcode = 3

instance (c : CPU) (f : Fields) : Decidable (Supported c f) := by
  unfold Supported; infer_instance

/-- A fresh CPU pre-loaded with `$ra = 6`, a value that is not a multiple
of 4. -/
def jrOddState : CPU := { CPU.new with registerfile := CPU.new.registerfile.set 31 6 }

/-- The line `ADD $t0, $zero, $zero`. -/
def addT0Line : List Char := "00000000000000000100000000100000".toList

/-- The state a fresh CPU is in after the first cycle of `lwJalProgram`, that
is after `LW $t0, 0($zero)`. -/
def afterLwState : CPU := ((fetch CPU.new lwJalProgram).map Prod.snd).getD CPU.new

/-- The state a fresh CPU is in after `ADD $t0, $zero, $zero`. -/
def afterAddState : CPU :=
  ((fetch CPU.new [addT0Line, jalLine]).map Prod.snd).getD CPU.new

/-- The line of `addLine` with its opcode field changed from 0 to 1, which is
none of the six supported opcodes; the other fields are those of
`ADD $t3, $t1, $t2`. -/
def opcodeOneAddLine : List Char := "00000101001010100101100000100000".toList

/-- The state `addState` is in after a cycle that executed
`ADD $t0, $zero, $zero`: `pc = 4`, cycle count 1 and the control signals of an
R-type instruction. -/
def afterRtypeState : CPU := ((fetch addState [addT0Line]).map Prod.snd).getD addState

/-- The state `jrState` is in after a cycle that executed `JR $ra`: `pc = 8`
and `alu_op = 100`, which is no ALU operation. -/
def afterJrState : CPU := ((fetch jrState [jrLine]).map Prod.snd).getD jrState

/-! ## Arithmetic and list lemmas -/

theorem wrap32_eq_self {x : Int} (h1 : -2147483648 ≤ x) (h2 : x < 2147483648) :
    wrap32 x = x := by
  unfold wrap32; omega

theorem bitsValue_nonneg (l : List Char) : 0 ≤ bitsValue l := by
  induction l with
  | nil => simp [bitsValue]
  | cons ch rest ih =>
    simp only [bitsValue]
    have : (0 : Int) ≤ 2 ^ rest.length := by positivity
    split <;> omega

theorem bitsValue_lt (l : List Char) : bitsValue l < 2 ^ l.length := by
  induction l with
  | nil => simp [bitsValue]
  | cons ch rest ih =>
    simp only [bitsValue, List.length_cons, pow_succ]
    have : (0 : Int) ≤ 2 ^ rest.length := by positivity
    split <;> omega

theorem bitsValue_append (a b : List Char) :
    bitsValue (a ++ b) = bitsValue a * 2 ^ b.length + bitsValue b := by
  induction a with
  | nil => simp [bitsValue]
  | cons ch rest ih =>
    simp only [List.cons_append, bitsValue, List.append_eq, ih, List.length_append, pow_add]
    ring

theorem convertLoop_bits (l : List Char) (hl : ∀ ch ∈ l, ch = '0' ∨ ch = '1') :
    ∀ acc : Int, 0 ≤ acc → acc + bitsValue l < 2147483648 →
      convertLoop l acc = some (acc + bitsValue l) := by
  induction l with
  | nil => intro acc _ _; simp [convertLoop, bitsValue]
  | cons ch rest ih =>
    intro acc h0 h1
    have hp : (0 : Int) ≤ 2 ^ rest.length := by positivity
    have hr := bitsValue_nonneg rest
    have hrest : ∀ ch ∈ rest, ch = '0' ∨ ch = '1' := fun x hx => hl x (List.mem_cons_of_mem _ hx)
    rcases hl ch (List.mem_cons_self _ _) with rfl | rfl
    · have hs : stoi1 '0' = some 0 := by decide
      simp only [bitsValue, Char.reduceEq, if_false, zero_mul, zero_add] at h1 ⊢
      have hd : doubleToInt (acc + 0 * 2 ^ rest.length) = some acc := by
        simp [doubleToInt]; omega
      simp only [convertLoop, hs, Option.bind_eq_bind, Option.some_bind, hd]
      exact ih hrest acc h0 h1
    · have hs : stoi1 '1' = some 1 := by decide
      simp only [bitsValue, if_true, one_mul] at h1 ⊢
      have hd : doubleToInt (acc + 1 * 2 ^ rest.length) = some (acc + 2 ^ rest.length) := by
        simp [doubleToInt]; omega
      simp only [convertLoop, hs, Option.bind_eq_bind, Option.some_bind, hd]
      rw [ih hrest (acc + 2 ^ rest.length) (by omega) (by omega)]
      simp [add_assoc]

theorem convertBinaryStrToInt_bits (l : List Char) (hl : ∀ ch ∈ l, ch = '0' ∨ ch = '1')
    (hlen : l.length ≤ 31) : convertBinaryStrToInt l = some (bitsValue l) := by
  have h := bitsValue_lt l
  have hp : (2 : Int) ^ l.length ≤ 2 ^ 31 := pow_le_pow_right₀ (by norm_num) hlen
  have := convertLoop_bits l hl 0 (le_refl _) (by norm_num at hp; omega)
  simpa [convertBinaryStrToInt] using this

theorem emod_two_mul (v m : Int) (hm : 0 < m) :
    v % (m * 2) = (v / m) % 2 * m + v % m := by
  have h1 := Int.emod_add_ediv v m
  have h2 := Int.emod_add_ediv (v / m) 2
  have h3 := Int.emod_nonneg v (ne_of_gt hm)
  have h4 := Int.emod_lt_of_pos v hm
  have h5 := Int.emod_nonneg (v / m) (by norm_num : (2 : Int) ≠ 0)
  have h6 := Int.emod_lt_of_pos (v / m) (by norm_num : (0 : Int) < 2)
  have key := (Int.ediv_emod_unique (a := v) (b := m * 2)
      (r := (v / m) % 2 * m + v % m) (q := v / m / 2) (by omega)).2
  refine (key ⟨?_, ?_, ?_⟩).2
  · have : v / m % 2 * m + v % m + m * 2 * (v / m / 2)
        = v % m + m * (v / m % 2 + 2 * (v / m / 2)) := by ring
    rw [this, h2, h1]
  · have : 0 ≤ v / m % 2 * m := mul_nonneg h5 (le_of_lt hm)
    omega
  · have : v / m % 2 * m ≤ 1 * m := mul_le_mul_of_nonneg_right (by omega) (le_of_lt hm)
    omega

theorem length_bitsetToString (n : Nat) (v : Int) : (bitsetToString n v).length = n := by
  induction n with
  | zero => rfl
  | succ n ih => simp [bitsetToString, ih]

theorem bitsetToString_bin (n : Nat) (v : Int) :
    ∀ ch ∈ bitsetToString n v, ch = '0' ∨ ch = '1' := by
  induction n with
  | zero => intro ch h; simp [bitsetToString] at h
  | succ n ih =>
    intro ch h
    simp only [bitsetToString, List.mem_cons] at h
    rcases h with h | h
    · split at h <;> simp [h]
    · exact ih ch h

theorem bitsValue_bitsetToString (n : Nat) (v : Int) :
    bitsValue (bitsetToString n v) = v % 2 ^ n := by
  induction n with
  | zero => simp [bitsetToString, bitsValue, Int.emod_one]
  | succ n ih =>
    have hp : (0 : Int) < 2 ^ n := by positivity
    have h5 := Int.emod_nonneg (v / 2 ^ n) (by norm_num : (2 : Int) ≠ 0)
    have h6 := Int.emod_lt_of_pos (v / 2 ^ n) (by norm_num : (0 : Int) < 2)
    rw [pow_succ, emod_two_mul v _ hp]
    simp only [bitsetToString, bitsValue, ih, length_bitsetToString]
    by_cases hb : v / 2 ^ n % 2 = 1
    · simp [hb]
    · have h0 : v / 2 ^ n % 2 = 0 := by omega
      simp [h0]

theorem bitsValue_cons (ch : Char) (rest : List Char) :
    bitsValue (ch :: rest) = (if ch = '1' then 1 else 0) * 2 ^ rest.length + bitsValue rest := rfl

/-- The value computed by `signExtended` once the 16-bit string is known to be
`b :: r` and the padding is `b :: p`. -/
theorem signExtended_aux (imm : Int) (b : Char) (r p : List Char) (hb01 : b = '0' ∨ b = '1')
    (e : bitsetToString 16 imm = b :: r)
    (hp : (if [b] = ['1'] then "1111111111111111".toList else "0000000000000000".toList) = b :: p)
    (hpl : p.length = 15) (hrl : r.length = 15)
    (hc : convertBinaryStrToInt (p ++ b :: r) = some (bitsValue (p ++ b :: r))) :
    signExtended imm = some (if b = '1' then wrap32 (-2147483648 + bitsValue (p ++ b :: r))
                             else bitsValue (p ++ b :: r)) := by
  have hp2 : (if [b] = ['1'] then "1111111111111111".toList ++ b :: r
                else "0000000000000000".toList ++ b :: r) = b :: (p ++ b :: r) := by
    rw [← List.cons_append, ← hp]; split <;> rfl
  have hlen : (p ++ b :: r).length = 31 := by simp [hpl, hrl]
  have hd : doubleToInt (-1 * 2 ^ 31) = some (-2147483648) := by decide
  simp only [signExtended, e, substr, Nat.zero_le, if_true, Option.bind_eq_bind, Option.some_bind,
    List.drop_zero, List.take_succ_cons, List.take_zero, Option.pure_def, hp2, List.length_cons,
    hlen, Nat.add_sub_cancel, List.drop_succ_cons, Nat.le_add_left]
  rw [List.take_of_length_le (le_of_eq hlen), hc]
  simp only [Option.some_bind, List.cons.injEq, and_true, hd]
  rcases hb01 with rfl | rfl
  · simp
  · simp

theorem signExtended_eq (imm : Int) (h0 : 0 ≤ imm) (h1 : imm < 65536) :
    signExtended imm = some (signext16 imm) := by
  have hv := bitsValue_bitsetToString 15 imm
  have hb := bitsetToString_bin 15 imm
  have hl := length_bitsetToString 15 imm
  have e : bitsetToString 16 imm
      = (if imm / 2 ^ 15 % 2 = 1 then '1' else '0') :: bitsetToString 15 imm := rfl
  generalize bitsetToString 15 imm = r at hv hb hl e
  norm_num at hv
  by_cases hs : imm < 32768
  · have hbit : ¬ (imm / 32768 % 2 = 1) := by omega
    norm_num [hbit] at e
    have hbin : ∀ ch ∈ "000000000000000".toList ++ '0' :: r, ch = '0' ∨ ch = '1' := by
      intro ch hch
      simp only [List.mem_append, List.mem_cons] at hch
      rcases hch with hch | hch | hch
      · revert ch; decide
      · exact Or.inl hch
      · exact hb ch hch
    have hc := convertBinaryStrToInt_bits _ hbin (by simp [hl])
    have hz : bitsValue "000000000000000".toList = 0 := by decide
    have hval : bitsValue ("000000000000000".toList ++ '0' :: r) = imm := by
      rw [bitsValue_append, hz, bitsValue_cons, hv]; simp; omega
    rw [signExtended_aux imm '0' r "000000000000000".toList (Or.inl rfl) e (by decide) (by decide) hl hc,
      hval]
    simp [signext16, hs]
  · have hbit : imm / 32768 % 2 = 1 := by omega
    norm_num [hbit] at e
    have hbin : ∀ ch ∈ "111111111111111".toList ++ '1' :: r, ch = '0' ∨ ch = '1' := by
      intro ch hch
      simp only [List.mem_append, List.mem_cons] at hch
      rcases hch with hch | hch | hch
      · revert ch; decide
      · exact Or.inr hch
      · exact hb ch hch
    have hc := convertBinaryStrToInt_bits _ hbin (by simp [hl])
    have hz : bitsValue "111111111111111".toList = 32767 := by decide
    have hval : bitsValue ("111111111111111".toList ++ '1' :: r) = imm + 2147418112 := by
      rw [bitsValue_append, hz, bitsValue_cons, hv]; simp [hl]; omega
    rw [signExtended_aux imm '1' r "111111111111111".toList (Or.inr rfl) e (by decide) (by decide) hl hc,
      hval]
    simp [signext16, hs, wrap32]; omega

theorem convertBinaryStrToInt_of_lt (l : List Char) (hl : ∀ ch ∈ l, ch = '0' ∨ ch = '1')
    (hv : bitsValue l < 2147483648) : convertBinaryStrToInt l = some (bitsValue l) := by
  have := convertLoop_bits l hl 0 (le_refl _) (by omega)
  simpa [convertBinaryStrToInt] using this

theorem fourMostSigFromPC_eq (c : CPU) (h0 : 0 ≤ c.pc) (h1 : c.pc < 2147483648) :
    fourMostSigFromPC c = some (c.pc / 268435456 * 268435456) := by
  have e : bitsetToString 32 c.pc
      = (if c.pc / 2 ^ 31 % 2 = 1 then '1' else '0') :: (if c.pc / 2 ^ 30 % 2 = 1 then '1' else '0')
        :: (if c.pc / 2 ^ 29 % 2 = 1 then '1' else '0') :: (if c.pc / 2 ^ 28 % 2 = 1 then '1' else '0')
        :: bitsetToString 28 c.pc := rfl
  simp only [fourMostSigFromPC, e, substr, Nat.zero_le, if_true, Option.bind_eq_bind,
    Option.some_bind, List.drop_zero, List.take_succ_cons, List.take_zero]
  norm_num only
  have b31 : ¬ (c.pc / 2147483648 % 2 = 1) := by omega
  simp only [b31, if_false]
  by_cases b30 : c.pc / 1073741824 % 2 = 1 <;> by_cases b29 : c.pc / 536870912 % 2 = 1 <;>
    by_cases b28 : c.pc / 268435456 % 2 = 1 <;> simp only [b30, b29, b28, if_true, if_false]
  all_goals
    rw [convertBinaryStrToInt_of_lt _ (by decide) (by decide), bitsValue_append,
      (by decide : bitsValue "0000000000000000000000000000".toList = 0),
      (by decide : "0000000000000000000000000000".toList.length = 28)]
    simp only [bitsValue, List.length_cons, List.length_nil, Char.reduceEq, if_true, if_false]
    norm_num only
    congr 1
    omega

theorem readLines_succ (file : List (List Char)) :
    ∀ (n : Nat) (s : List Char), readLines (n + 1) file s = file[n]? := by
  induction file with
  | nil => intro n s; simp [readLines]
  | cons line rest ih =>
    intro n s
    cases n with
    | zero => simp [readLines]
    | succ n => simp [readLines, ih]

theorem readLines_of_nonneg (pc : Int) (h : 0 ≤ pc) (file : List (List Char)) :
    readLines (Int.tdiv pc 4 + 1).toNat file [] = file[(pc / 4).toNat]? := by
  have e : Int.tdiv pc 4 = pc / 4 := Int.tdiv_eq_ediv h (by norm_num)
  have h2 : (pc / 4 + 1).toNat = (pc / 4).toNat + 1 := by omega
  rw [e, h2, readLines_succ]

theorem vecGet_reg (c : CPU) (i : Int) (h0 : 0 ≤ i) (h1 : i < c.registerfile.length) :
    vecGet c.registerfile i = some (c.reg i) := by
  have : i.toNat < c.registerfile.length := by omega
  simp [CPU.reg, vecGet, h0, List.getElem?_eq_getElem this]

theorem vecGet_word (c : CPU) (i : Int) (h0 : 0 ≤ i) (h1 : i < c.d_mem.length) :
    vecGet c.d_mem i = some (c.word i) := by
  have : i.toNat < c.d_mem.length := by omega
  simp [CPU.word, vecGet, h0, List.getElem?_eq_getElem this]

theorem vecSet_eq (v : List Int) (i x : Int) (h0 : 0 ≤ i) (h1 : i < v.length) :
    vecSet v i x = some (v.set i.toNat x) := by
  have : i.toNat < v.length := by omega
  simp [vecSet, h0, this]

theorem field_eq (str : List Char) (hstr : IsInstruction str) (pos len : Nat)
    (h1 : pos + len ≤ 32) (h2 : len ≤ 31) :
    field str pos len = some (bitsValue ((str.drop pos).take len)) ∧
      0 ≤ bitsValue ((str.drop pos).take len) ∧ bitsValue ((str.drop pos).take len) < 2 ^ len := by
  have hbin : ∀ ch ∈ (str.drop pos).take len, ch = '0' ∨ ch = '1' := fun ch h =>
    hstr.2 ch (List.mem_of_mem_drop (List.mem_of_mem_take h))
  have hlen : ((str.drop pos).take len).length = len := by
    simp [List.length_take, List.length_drop, hstr.1]; omega
  refine ⟨?_, bitsValue_nonneg _, ?_⟩
  · have hp : pos ≤ str.length := by rw [hstr.1]; omega
    simp only [field, substr, hp, if_true]
    exact convertBinaryStrToInt_bits _ hbin (by omega)
  · have := bitsValue_lt ((str.drop pos).take len)
    rwa [hlen] at this

/-- On an instruction line every field of the decoder is the number written by
its slice of the line. -/
theorem decodeFields_eq (str : List Char) (hstr : IsInstruction str) :
    decodeFields str = some
      { opcode := bitsValue ((str.drop 0).take 6), rs := bitsValue ((str.drop 6).take 5),
        rt := bitsValue ((str.drop 11).take 5), rd := bitsValue ((str.drop 16).take 5),
        shamt := bitsValue ((str.drop 21).take 5), funct := bitsValue ((str.drop 26).take 6),
        imm := bitsValue ((str.drop 16).take 16), addr := bitsValue ((str.drop 6).take 26) } := by
  simp only [decodeFields, (field_eq str hstr 0 6 (by norm_num) (by norm_num)).1,
    (field_eq str hstr 6 5 (by norm_num) (by norm_num)).1,
    (field_eq str hstr 11 5 (by norm_num) (by norm_num)).1,
    (field_eq str hstr 16 5 (by norm_num) (by norm_num)).1,
    (field_eq str hstr 21 5 (by norm_num) (by norm_num)).1,
    (field_eq str hstr 26 6 (by norm_num) (by norm_num)).1,
    (field_eq str hstr 16 16 (by norm_num) (by norm_num)).1,
    (field_eq str hstr 6 26 (by norm_num) (by norm_num)).1]

/-- The fields decoded from an instruction line are within the range of their
width. -/
theorem decodeFields_bounds (str : List Char) (f : Fields) (hstr : IsInstruction str)
    (hf : decodeFields str = some f) :
    (0 ≤ f.opcode ∧ f.opcode < 64) ∧ (0 ≤ f.rs ∧ f.rs < 32) ∧
      (0 ≤ f.rt ∧ f.rt < 32) ∧ (0 ≤ f.rd ∧ f.rd < 32) ∧ (0 ≤ f.shamt ∧ f.shamt < 32) ∧
      (0 ≤ f.funct ∧ f.funct < 64) ∧ (0 ≤ f.imm ∧ f.imm < 65536) ∧
      (0 ≤ f.addr ∧ f.addr < 67108864) := by
  obtain ⟨-, a1, b1⟩ := field_eq str hstr 0 6 (by norm_num) (by norm_num)
  obtain ⟨-, a2, b2⟩ := field_eq str hstr 6 5 (by norm_num) (by norm_num)
  obtain ⟨-, a3, b3⟩ := field_eq str hstr 11 5 (by norm_num) (by norm_num)
  obtain ⟨-, a4, b4⟩ := field_eq str hstr 16 5 (by norm_num) (by norm_num)
  obtain ⟨-, a5, b5⟩ := field_eq str hstr 21 5 (by norm_num) (by norm_num)
  obtain ⟨-, a6, b6⟩ := field_eq str hstr 26 6 (by norm_num) (by norm_num)
  obtain ⟨-, a7, b7⟩ := field_eq str hstr 16 16 (by norm_num) (by norm_num)
  obtain ⟨-, a8, b8⟩ := field_eq str hstr 6 26 (by norm_num) (by norm_num)
  rw [decodeFields_eq str hstr] at hf
  cases hf
  norm_num at b1 b2 b3 b4 b5 b6 b7 b8
  exact ⟨⟨a1, b1⟩, ⟨a2, b2⟩, ⟨a3, b3⟩, ⟨a4, b4⟩, ⟨a5, b5⟩, ⟨a6, b6⟩, ⟨a7, b7⟩, ⟨a8, b8⟩⟩

theorem and_top4_mask (p : Nat) (hp : p < 2 ^ 32) :
    p &&& 0xF0000000 = 2 ^ 28 * (p / 2 ^ 28) := by
  apply Nat.eq_of_testBit_eq
  intro i
  have hm : (0xF0000000 : Nat) = 2 ^ 28 * (2 ^ 4 - 1) := by norm_num
  rw [Nat.testBit_and, hm, Nat.testBit_mul_pow_two, Nat.testBit_mul_pow_two,
    Nat.testBit_two_pow_sub_one, ← Nat.shiftRight_eq_div_pow, Nat.testBit_shiftRight]
  by_cases h1 : 28 ≤ i
  · by_cases h2 : i < 32
    · have e : 28 + (i - 28) = i := by omega
      have h3 : i - 28 < 4 := by omega
      simp [h1, h3, e]
    · have e : 28 + (i - 28) = i := by omega
      have h3 : ¬ (i - 28 < 4) := by omega
      have hlt : p < 2 ^ i := lt_of_lt_of_le hp (Nat.pow_le_pow_right (by norm_num) (by omega))
      simp [h1, h3, e, Nat.testBit_lt_two_pow hlt]
  · simp [h1]

/-- The sum that `decode` forms for the jump target is the bitwise OR of the
shifted address field and the top four bits of `pc`. -/
theorem jump_target_bits (a p : Int) (ha0 : 0 ≤ a) (ha1 : a < 67108864) (hp0 : 0 ≤ p)
    (hp1 : p < 2147483648) :
    a * 4 + p / 268435456 * 268435456
      = ((a.toNat <<< 2 ||| (p.toNat &&& 0xF0000000) : Nat) : Int) := by
  have hp : p.toNat < 2 ^ 32 := by norm_num; omega
  have ha : a.toNat * 4 < 2 ^ 28 := by norm_num; omega
  rw [and_top4_mask p.toNat hp, Nat.shiftLeft_eq, Nat.lor_comm, ← Nat.mul_add_lt_is_or ha]
  norm_num
  omega

theorem fetch_line (c : CPU) (file : List (List Char)) (str : List Char) (f : Fields)
    (hpc : 0 ≤ c.pc) (hline : file[(c.pc / 4).toNat]? = some str)
    (hf : decodeFields str = some f) :
    fetch c file =
      match decodeBody { resetTouchedMemory (resetTouchedRegister c) with
                         next_pc := wrap32 (c.pc + 4) } f with
      | none => none
      | some c =>
        if c.regtopc ≠ 0 then
          some (true, { c with total_clock_cycles := wrap32 (c.total_clock_cycles + 1) })
        else if c.jump ≠ 0 then
          if c.jlink = 0 then
            some (true, { c with pc := c.jump_target,
                                 total_clock_cycles := wrap32 (c.total_clock_cycles + 1) })
          else
            some (true, c)
        else if c.alu_zero ≠ 0 ∧ c.branch ≠ 0 then
          some (true, { c with pc := c.branch_target })
        else
          some (true, { c with pc := c.next_pc }) := by
  have h := readLines_of_nonneg c.pc hpc file
  rw [hline] at h
  simp only [fetch, resetTouchedMemory, resetTouchedRegister, h, decode, hf,
    Option.bind_eq_bind, Option.some_bind]

/-! ### The stages after decoding, by control-signal configuration -/

theorem alucontrol_rtype (c : CPU) (funct : Int)
    (hfn : funct = 32 ∨ funct = 34 ∨ funct = 36 ∨ funct = 37 ∨ funct = 42 ∨ funct = 39) :
    alucontrol c 2 funct = { c with alu_op := rtypeAluOp funct } := by
  rcases hfn with h | h | h | h | h | h <;> subst h <;>
    simp [alucontrol, rtypeAluOp, FUNC_ADD, FUNC_SUB, FUNC_AND, FUNC_OR, FUNC_SLT, FUNC_NOR]

theorem aluResult_rtype (funct a b : Int)
    (hfn : funct = 32 ∨ funct = 34 ∨ funct = 36 ∨ funct = 37 ∨ funct = 42 ∨ funct = 39) :
    aluResult (rtypeAluOp funct) a b = some (rtypeOp funct a b) := by
  rcases hfn with h | h | h | h | h | h <;> subst h <;>
    simp [aluResult, rtypeAluOp, rtypeOp, ADD, SUB, AND, OR, SLT, NOR]

theorem execute_rtype (c : CPU) (se a b funct : Int) (h1 : c.insttype1 = true)
    (h0 : c.insttype0 = false) (hb : c.branch = 0) (hsrc : c.alusrc = 0) (hr : c.regtopc = 0)
    (hfn : funct = 32 ∨ funct = 34 ∨ funct = 36 ∨ funct = 37 ∨ funct = 42 ∨ funct = 39) :
    execute c se a b funct
      = mem { c with alu_op := rtypeAluOp funct,
                     alu_zero := if rtypeOp funct a b = 0 then 1 else 0 }
          (rtypeOp funct a b) b := by
  have e : ((if c.insttype1 then 1 else 0) * 2 + (if c.insttype0 then 1 else 0) * 1 : Int) = 2 := by
    simp [h1, h0]
  simp only [execute, e, alucontrol_rtype c funct hfn, hr, hsrc, aluResult_rtype funct a b hfn, hb]
  by_cases hz : rtypeOp funct a b = 0 <;> simp [hz, aluResult_rtype funct a b hfn]

theorem execute_iadd (c : CPU) (se a b funct : Int) (h1 : c.insttype1 = false)
    (h0 : c.insttype0 = false) (hb : c.branch = 0) (hsrc : c.alusrc = 1) (hr : c.regtopc = 0) :
    execute c se a b funct
      = mem { c with alu_op := ADD, alu_zero := if wrap32 (a + se) = 0 then 1 else 0 }
          (wrap32 (a + se)) b := by
  by_cases hz : wrap32 (a + se) = 0 <;>
    simp [execute, alucontrol, h1, h0, hb, hsrc, hr, aluResult, ADD, AND, OR, hz]

theorem execute_beq (c : CPU) (se a b funct : Int) (h1 : c.insttype1 = false)
    (h0 : c.insttype0 = true) (hb : c.branch = 1) (hsrc : c.alusrc = 0) (hr : c.regtopc = 0) :
    execute c se a b funct =
      if wrap32 (a - b) = 0 then
        some { c with alu_op := SUB, alu_zero := 1,
                      branch_target := wrap32 (shiftLeftTwo se + c.next_pc),
                      total_clock_cycles := wrap32 (c.total_clock_cycles + 1) }
      else mem { c with alu_op := SUB, alu_zero := 0 } (wrap32 (a - b)) b := by
  by_cases hz : wrap32 (a - b) = 0 <;>
    simp [execute, alucontrol, h1, h0, hb, hsrc, hr, aluResult, ADD, AND, OR, SUB, hz]

theorem execute_jr (c : CPU) (se a b : Int) (h1 : c.insttype1 = true)
    (h0 : c.insttype0 = false) :
    execute c se a b 8 = some { c with alu_op := JR, regtopc := 1, pc := a } := by
  simp [execute, alucontrol, h1, h0, FUNC_ADD, FUNC_SUB, FUNC_AND, FUNC_OR, FUNC_SLT, FUNC_NOR,
    FUNC_JR]

theorem mem_alu (c : CPU) (r b : Int) (hmr : c.memread = 0) (hmw : c.memwrite = 0)
    (hrw : c.regwrite = 1) (hmt : c.memtoreg = 0) (hjl : c.jlink = 0)
    (hw0 : 0 ≤ c.writeToReg) (hw1 : c.writeToReg < c.registerfile.length) :
    mem c r b = some { c with registerfile := c.registerfile.set c.writeToReg.toNat r,
                              touched_register := (true, c.writeToReg),
                              total_clock_cycles := wrap32 (c.total_clock_cycles + 1) } := by
  simp [mem, writeback, hmr, hmw, hrw, hmt, hjl, vecSet_eq _ _ _ hw0 hw1]

theorem mem_nowrite (c : CPU) (r b : Int) (hmr : c.memread = 0) (hmw : c.memwrite = 0)
    (hrw : c.regwrite = 0) :
    mem c r b = some { c with total_clock_cycles := wrap32 (c.total_clock_cycles + 1) } := by
  simp [mem, writeback, hmr, hmw, hrw]

theorem mem_load (c : CPU) (r b : Int) (hmr : c.memread = 1)
    (hrw : c.regwrite = 1) (hmt : c.memtoreg = 1)
    (hr0 : 0 ≤ r) (hr1 : r < 4 * c.d_mem.length)
    (hw0 : 0 ≤ c.writeToReg) (hw1 : c.writeToReg < c.registerfile.length) :
    mem c r b = some { c with registerfile := c.registerfile.set c.writeToReg.toNat (c.word (r / 4)),
                              touched_register := (true, c.writeToReg),
                              total_clock_cycles := wrap32 (c.total_clock_cycles + 1) } := by
  have e : Int.tdiv r 4 = r / 4 := Int.tdiv_eq_ediv hr0 (by norm_num)
  have hg := vecGet_word c (r / 4) (by omega) (by omega)
  simp [mem, writeback, hmr, hrw, hmt, e, hg, vecSet_eq _ _ _ hw0 hw1]

theorem mem_store (c : CPU) (r b : Int) (hmr : c.memread = 0) (hmw : c.memwrite = 1)
    (hr0 : 0 ≤ r) (hr1 : r < 4 * c.d_mem.length) :
    mem c r b = some { c with d_mem := c.d_mem.set (r / 4).toNat b,
                              touched_memory := (true, r / 4),
                              total_clock_cycles := wrap32 (c.total_clock_cycles + 1) } := by
  have e : Int.tdiv r 4 = r / 4 := Int.tdiv_eq_ediv hr0 (by norm_num)
  simp [mem, hmr, hmw, e, vecSet_eq c.d_mem (r / 4) b (by omega) (by omega)]

theorem reg_range (c : CPU) (i : Int) (h : ∀ x ∈ c.registerfile, IsInt32 x) : IsInt32 (c.reg i) := by
  unfold CPU.reg vecGet
  split
  · cases hx : c.registerfile[i.toNat]? with
    | none => simp [IsInt32]
    | some x =>
      simp only [Option.getD_some]
      exact h x (List.getElem?_mem hx)
  · simp [IsInt32]

/-! ### At most one side effect per cycle -/

theorem writeback_effect (c c' : CPU) (r d : Int) (hr : c.touched_register.1 = false)
    (hm : c.touched_memory.1 = false) (h : writeback c r d = some c') :
    OneEffect c.registerfile c.d_mem c' := by
  unfold writeback at h
  split_ifs at h
  · obtain ⟨x, hx, h⟩ := Option.bind_eq_some.1 h
    cases h
    exact Or.inr (Or.inl ⟨rfl, hm, rfl, _, hx⟩)
  · obtain ⟨x, hx, h⟩ := Option.bind_eq_some.1 h
    cases h
    exact Or.inr (Or.inl ⟨rfl, hm, rfl, _, hx⟩)
  · obtain ⟨x, hx, h⟩ := Option.bind_eq_some.1 h
    cases h
    exact Or.inr (Or.inl ⟨rfl, hm, rfl, _, hx⟩)
  · cases h
    exact Or.inl ⟨hr, hm, rfl, rfl⟩

theorem mem_effect (c c' : CPU) (r b : Int) (hr : c.touched_register.1 = false)
    (hm : c.touched_memory.1 = false) (h : mem c r b = some c') :
    OneEffect c.registerfile c.d_mem c' := by
  unfold mem at h
  split_ifs at h
  · obtain ⟨x, -, h⟩ := Option.bind_eq_some.1 h
    exact writeback_effect c c' _ _ hr hm h
  · obtain ⟨x, hx, h⟩ := Option.bind_eq_some.1 h
    cases h
    exact Or.inr (Or.inr ⟨hr, rfl, rfl, _, hx⟩)
  · exact writeback_effect c c' _ _ hr hm h

theorem alucontrol_frame (c : CPU) (i fn : Int) :
    (alucontrol c i fn).registerfile = c.registerfile ∧ (alucontrol c i fn).d_mem = c.d_mem ∧
    (alucontrol c i fn).touched_register = c.touched_register ∧
    (alucontrol c i fn).touched_memory = c.touched_memory := by
  simp only [alucontrol, apply_ite CPU.registerfile, apply_ite CPU.d_mem,
    apply_ite CPU.touched_register, apply_ite CPU.touched_memory, ite_self, and_self]

theorem controlunit_frame (c : CPU) (op : Int) :
    (controlunit c op).registerfile = c.registerfile ∧ (controlunit c op).d_mem = c.d_mem ∧
    (controlunit c op).touched_register = c.touched_register ∧
    (controlunit c op).touched_memory = c.touched_memory ∧
    (controlunit c op).pc = c.pc := by
  simp only [controlunit, apply_ite CPU.registerfile, apply_ite CPU.d_mem,
    apply_ite CPU.touched_register, apply_ite CPU.touched_memory, apply_ite CPU.pc, ite_self,
    and_self]

theorem execute_effect (c c' : CPU) (se a b fn : Int) (hr : c.touched_register.1 = false)
    (hm : c.touched_memory.1 = false) (h : execute c se a b fn = some c') :
    OneEffect c.registerfile c.d_mem c' := by
  unfold execute at h
  simp only at h
  obtain ⟨e1, e2, e3, e4⟩ := alucontrol_frame c
    ((if c.insttype1 then 1 else 0) * 2 + (if c.insttype0 then 1 else 0) * 1) fn
  generalize alucontrol c
    ((if c.insttype1 then 1 else 0) * 2 + (if c.insttype0 then 1 else 0) * 1) fn = c1 at h e1 e2 e3 e4
  rw [← e1, ← e2]
  rw [← e3] at hr
  rw [← e4] at hm
  have key : ∀ (c2 : CPU) (r : Int), c2.registerfile = c1.registerfile → c2.d_mem = c1.d_mem →
      c2.touched_register = c1.touched_register → c2.touched_memory = c1.touched_memory →
      mem c2 r b = some c' → OneEffect c1.registerfile c1.d_mem c' := by
    intro c2 r h1 h2 h3 h4 h5
    rw [← h1, ← h2]
    exact mem_effect c2 c' r b (by rw [h3]; exact hr) (by rw [h4]; exact hm) h5
  split_ifs at h
  all_goals first
    | (cases h; exact Or.inl ⟨hr, hm, rfl, rfl⟩)
    | (split at h
       · cases h
       · split_ifs at h
         all_goals first
           | (cases h; exact Or.inl ⟨hr, hm, rfl, rfl⟩)
           | (refine key _ _ ?_ ?_ ?_ ?_ h <;> rfl))

theorem oneEffect_congr (R M : List Int) (c1 c2 : CPU) (h1 : c2.registerfile = c1.registerfile)
    (h2 : c2.d_mem = c1.d_mem) (h3 : c2.touched_register = c1.touched_register)
    (h4 : c2.touched_memory = c1.touched_memory) (h : OneEffect R M c1) : OneEffect R M c2 := by
  unfold OneEffect at h ⊢
  rw [h1, h2, h3, h4]
  exact h

theorem decodeBody_effect (c c' : CPU) (f : Fields) (hr : c.touched_register.1 = false)
    (hm : c.touched_memory.1 = false) (h : decodeBody c f = some c') :
    OneEffect c.registerfile c.d_mem c' := by
  unfold decodeBody at h
  obtain ⟨e1, e2, e3, e4, -⟩ := controlunit_frame c f.opcode
  generalize controlunit c f.opcode = c1 at h e1 e2 e3 e4
  rw [← e1, ← e2]
  rw [← e3] at hr
  rw [← e4] at hm
  simp only [Option.bind_eq_bind, Option.pure_def, Option.bind_eq_some] at h
  obtain ⟨imm, -, top, -, h⟩ := h
  have key : ∀ (c2 c3 : CPU), c2.registerfile = c1.registerfile → c2.d_mem = c1.d_mem →
      c2.touched_register = c1.touched_register → c2.touched_memory = c1.touched_memory →
      (if c2.jump ≠ 0 then
        if c2.jlink ≠ 0 then
          (writeback { c2 with writeToReg := RA } c2.next_pc 999).bind fun c =>
            some { c with pc := c.jump_target,
                          total_clock_cycles := wrap32 (c.total_clock_cycles + 1) }
        else some c2
      else (vecGet c2.registerfile f.rs).bind fun a =>
        (vecGet c2.registerfile f.rt).bind fun b => execute c2 imm a b f.funct) = some c3 →
      OneEffect c1.registerfile c1.d_mem c3 := by
    intro c2 c3 h1 h2 h3 h4 h5
    rw [← h1, ← h2]
    have hr2 : c2.touched_register.1 = false := by rw [h3]; exact hr
    have hm2 : c2.touched_memory.1 = false := by rw [h4]; exact hm
    split_ifs at h5
    · obtain ⟨c4, hw, h5⟩ := Option.bind_eq_some.1 h5
      cases h5
      have := writeback_effect { c2 with writeToReg := RA } c4 _ _ hr2 hm2 hw
      exact oneEffect_congr _ _ c4 _ rfl rfl rfl rfl this
    · cases h5
      exact Or.inl ⟨hr2, hm2, rfl, rfl⟩
    · obtain ⟨a, -, h5⟩ := Option.bind_eq_some.1 h5
      obtain ⟨b, -, h5⟩ := Option.bind_eq_some.1 h5
      exact execute_effect c2 c3 _ _ _ _ hr2 hm2 h5
  exact key { c1 with regtopc := 0, writeToReg := if c1.regdest ≠ 0 then f.rd else f.rt,
                      jump_target := wrap32 (shiftLeftTwo f.addr + top) } c' rfl rfl rfl rfl h

theorem fetch_effect (c c' : CPU) (file : List (List Char))
    (h : fetch c file = some (true, c')) : OneEffect c.registerfile c.d_mem c' := by
  unfold fetch at h
  simp only at h
  split at h
  · cases h
  · rename_i str hstr
    split at h
    · cases h
    · rename_i c2 hdec
      unfold decode at hdec
      obtain ⟨f, -, hbody⟩ := Option.bind_eq_some.1 hdec
      have he := decodeBody_effect _ c2 f (by rfl) (by rfl) hbody
      have he2 : OneEffect c.registerfile c.d_mem c2 := he
      split_ifs at h
      all_goals
        cases h
        refine oneEffect_congr _ _ _ _ ?_ ?_ ?_ ?_ he2 <;> rfl

theorem vecSet_get_ne (v w : List Int) (i j x : Int) (h : vecSet v i x = some w) (hne : j ≠ i) :
    vecGet w j = vecGet v j := by
  unfold vecSet at h
  split_ifs at h with hi
  cases h
  unfold vecGet
  split_ifs with hj
  · have : i.toNat ≠ j.toNat := by omega
    simp [List.getElem?_set, this]
  · rfl

/-! ### The jump-and-link path -/

/-- One cycle step on a `JAL` instruction, for either value of the `memtoreg`
signal left by earlier instructions (`controlunit` does not assign it for
`JAL`): with `memtoreg = 0` register 31 receives `pc + 4` and the cycle count
grows by 1; with `memtoreg ≠ 0` register 31 receives the dummy value 999 and
the cycle count grows by 2.  In both cases `pc` becomes the jump target and
register 31 is recorded as touched. -/
theorem jal_cycle (c : CPU) (file : List (List Char)) (str : List Char) (f : Fields)
    (hc : WellFormed c) (hline : file[(c.pc / 4).toNat]? = some str)
    (hstr : IsInstruction str) (hf : decodeFields str = some f)
    (hop : f.opcode = 3) :
    ∃ c', fetch c file = some (true, c') ∧
      c'.pc = f.addr * 4 + c.pc / 268435456 * 268435456 ∧
      c'.d_mem = c.d_mem ∧ c'.touched_register = (true, 31) ∧ memoryWasTouched c' = false ∧
      (c.memtoreg = 0 →
        c'.registerfile = c.registerfile.set 31 (wrap32 (c.pc + 4)) ∧
        c'.total_clock_cycles = wrap32 (c.total_clock_cycles + 1)) ∧
      (c.memtoreg ≠ 0 →
        c'.registerfile = c.registerfile.set 31 999 ∧
        c'.total_clock_cycles = wrap32 (wrap32 (c.total_clock_cycles + 1) + 1)) := by
  obtain ⟨hrl, hml, hrr, hp0, hp1⟩ := hc
  obtain ⟨-, -, -, -, -, -, ⟨im0, im1⟩, ⟨ad0, ad1⟩⟩ := decodeFields_bounds str f hstr hf
  simp only [NUM_REGS, NUM_MEMS] at hrl hml
  have hse := signExtended_eq f.imm im0 im1
  have hsum : wrap32 (shiftLeftTwo f.addr + c.pc / 268435456 * 268435456)
      = f.addr * 4 + c.pc / 268435456 * 268435456 := by
    unfold shiftLeftTwo wrap32; omega
  have hset : ∀ x, vecSet c.registerfile 31 x = some (c.registerfile.set 31 x) := fun x =>
    vecSet_eq c.registerfile 31 x (by norm_num) (by omega)
  rw [fetch_line c file str f hp0 hline hf]
  by_cases hm : c.memtoreg = 0 <;>
    simp [decodeBody, controlunit, hop, R_TYPE, LW, SW, BEQ, J, JAL, RA, resetTouchedMemory,
      resetTouchedRegister, hse, fourMostSigFromPC_eq, hp0, hp1, hsum, writeback, hset,
      memoryWasTouched, hm]

/-! ### One cycle step, by instruction class -/

theorem rtype_step (c : CPU) (file : List (List Char)) (str : List Char) (f : Fields)
    (hc : WellFormed c) (hline : file[(c.pc / 4).toNat]? = some str)
    (hstr : IsInstruction str) (hf : decodeFields str = some f)
    (hop : f.opcode = 0)
    (hfn : f.funct = 32 ∨ f.funct = 34 ∨ f.funct = 36 ∨ f.funct = 37 ∨ f.funct = 42 ∨ f.funct = 39) :
    ∃ c', fetch c file = some (true, c') ∧
      c'.registerfile = c.registerfile.set f.rd.toNat (rtypeOp f.funct (c.reg f.rs) (c.reg f.rt)) ∧
      c'.d_mem = c.d_mem ∧ c'.touched_register = (true, f.rd) ∧ memoryWasTouched c' = false ∧
      c'.pc = wrap32 (c.pc + 4) ∧
      c'.total_clock_cycles = wrap32 (c.total_clock_cycles + 1) := by
  obtain ⟨hrl, hml, hrr, hp0, hp1⟩ := hc
  obtain ⟨-, ⟨rs0, rs1⟩, ⟨rt0, rt1⟩, ⟨rd0, rd1⟩, -, -, ⟨im0, im1⟩, -⟩ :=
    decodeFields_bounds str f hstr hf
  simp only [NUM_REGS, NUM_MEMS] at hrl hml
  have hse := signExtended_eq f.imm im0 im1
  have hga := vecGet_reg c f.rs rs0 (by omega)
  have hgb := vecGet_reg c f.rt rt0 (by omega)
  rw [fetch_line c file str f hp0 hline hf]
  simp [decodeBody, controlunit, hop, R_TYPE, resetTouchedMemory, resetTouchedRegister,
    hse, fourMostSigFromPC_eq, hp0, hp1, hga, hgb]
  rw [execute_rtype _ _ _ _ _ rfl rfl rfl rfl rfl hfn]
  rw [mem_alu _ _ _ rfl rfl rfl rfl rfl rd0 (by simp; omega)]
  simp [memoryWasTouched]

theorem j_step (c : CPU) (file : List (List Char)) (str : List Char) (f : Fields)
    (hc : WellFormed c) (hline : file[(c.pc / 4).toNat]? = some str)
    (hstr : IsInstruction str) (hf : decodeFields str = some f)
    (hop : f.opcode = 2) :
    ∃ c', fetch c file = some (true, c') ∧
      c'.pc = ((f.addr.toNat <<< 2 ||| (c.pc.toNat &&& 0xF0000000) : Nat) : Int) ∧
      c'.pc = f.addr * 4 + c.pc / 268435456 * 268435456 ∧
      c'.registerfile = c.registerfile ∧ c'.d_mem = c.d_mem ∧
      registerWasTouched c' = false ∧ memoryWasTouched c' = false ∧
      c'.total_clock_cycles = wrap32 (c.total_clock_cycles + 1) := by
  obtain ⟨hrl, hml, hrr, hp0, hp1⟩ := hc
  obtain ⟨-, -, -, -, -, -, ⟨im0, im1⟩, ⟨ad0, ad1⟩⟩ := decodeFields_bounds str f hstr hf
  have hse := signExtended_eq f.imm im0 im1
  have hbits := jump_target_bits f.addr c.pc ad0 ad1 hp0 hp1
  have hsum : wrap32 (shiftLeftTwo f.addr + c.pc / 268435456 * 268435456)
      = f.addr * 4 + c.pc / 268435456 * 268435456 := by
    unfold shiftLeftTwo wrap32; omega
  rw [fetch_line c file str f hp0 hline hf]
  by_cases hrd : c.regdest = 0 <;>
    simp [decodeBody, controlunit, hop, R_TYPE, LW, SW, BEQ, J, resetTouchedMemory,
      resetTouchedRegister, hse, fourMostSigFromPC_eq, hp0, hp1, hsum, registerWasTouched,
      memoryWasTouched, hrd, ← hbits]

theorem beq_step (c : CPU) (file : List (List Char)) (str : List Char) (f : Fields)
    (hc : WellFormed c) (hline : file[(c.pc / 4).toNat]? = some str)
    (hstr : IsInstruction str) (hf : decodeFields str = some f)
    (hop : f.opcode = 4) :
    ∃ c', fetch c file = some (true, c') ∧
      c'.pc = (if c.reg f.rs = c.reg f.rt then wrap32 (c.pc + 4 + signext16 f.imm * 4)
               else wrap32 (c.pc + 4)) ∧
      c'.registerfile = c.registerfile ∧ c'.d_mem = c.d_mem ∧
      registerWasTouched c' = false ∧ memoryWasTouched c' = false ∧
      c'.total_clock_cycles = wrap32 (c.total_clock_cycles + 1) := by
  obtain ⟨hrl, hml, hrr, hp0, hp1⟩ := hc
  obtain ⟨-, ⟨rs0, rs1⟩, ⟨rt0, rt1⟩, -, -, -, ⟨im0, im1⟩, -⟩ :=
    decodeFields_bounds str f hstr hf
  simp only [NUM_REGS, NUM_MEMS] at hrl hml
  have hse := signExtended_eq f.imm im0 im1
  have hga := vecGet_reg c f.rs rs0 (by omega)
  have hgb := vecGet_reg c f.rt rt0 (by omega)
  have hra := reg_range c f.rs hrr
  have hrb := reg_range c f.rt hrr
  have hzero : wrap32 (c.reg f.rs - c.reg f.rt) = 0 ↔ c.reg f.rs = c.reg f.rt := by
    unfold IsInt32 at hra hrb; unfold wrap32; omega
  have htgt : wrap32 (shiftLeftTwo (signext16 f.imm) + wrap32 (c.pc + 4))
      = wrap32 (c.pc + 4 + signext16 f.imm * 4) := by
    unfold shiftLeftTwo wrap32; omega
  rw [fetch_line c file str f hp0 hline hf]
  by_cases hrd : c.regdest = 0 <;>
    simp [decodeBody, controlunit, hop, R_TYPE, LW, SW, BEQ, resetTouchedMemory,
      resetTouchedRegister, hse, fourMostSigFromPC_eq, hp0, hp1, hga, hgb, hrd] <;>
    rw [execute_beq _ _ _ _ _ rfl rfl rfl rfl rfl]
  all_goals
    by_cases he : c.reg f.rs = c.reg f.rt
    · simp only [hzero.2 he, if_true]
      simp [he, htgt, registerWasTouched, memoryWasTouched]
    · have hne : ¬ wrap32 (c.reg f.rs - c.reg f.rt) = 0 := fun h => he (hzero.1 h)
      simp only [hne, if_false]
      rw [mem_nowrite _ _ _ rfl rfl rfl]
      simp [he, registerWasTouched, memoryWasTouched]

theorem jr_step (c : CPU) (file : List (List Char)) (str : List Char) (f : Fields)
    (hc : WellFormed c) (hline : file[(c.pc / 4).toNat]? = some str)
    (hstr : IsInstruction str) (hf : decodeFields str = some f)
    (hop : f.opcode = 0) (hfn : f.funct = 8) :
    ∃ c', fetch c file = some (true, c') ∧ c'.pc = c.reg f.rs ∧
      c'.registerfile = c.registerfile ∧ c'.d_mem = c.d_mem ∧
      registerWasTouched c' = false ∧ memoryWasTouched c' = false ∧
      c'.total_clock_cycles = wrap32 (c.total_clock_cycles + 1) := by
  obtain ⟨hrl, hml, hrr, hp0, hp1⟩ := hc
  obtain ⟨-, ⟨rs0, rs1⟩, ⟨rt0, rt1⟩, -, -, -, ⟨im0, im1⟩, -⟩ :=
    decodeFields_bounds str f hstr hf
  simp only [NUM_REGS, NUM_MEMS] at hrl hml
  have hse := signExtended_eq f.imm im0 im1
  have hga := vecGet_reg c f.rs rs0 (by omega)
  have hgb := vecGet_reg c f.rt rt0 (by omega)
  rw [fetch_line c file str f hp0 hline hf]
  simp [decodeBody, controlunit, hop, hfn, R_TYPE, resetTouchedMemory, resetTouchedRegister,
    hse, fourMostSigFromPC_eq, hp0, hp1, hga, hgb]
  rw [execute_jr _ _ _ _ rfl rfl]
  simp [registerWasTouched, memoryWasTouched]

theorem tdiv_four_small_neg (r : Int) (h1 : -4 < r) (h2 : r < 0) : Int.tdiv r 4 = 0 := by
  interval_cases r <;> rfl

theorem tdiv_four_index (r : Int) (h1 : -4 < r) (h2 : r < 128) :
    0 ≤ Int.tdiv r 4 ∧ Int.tdiv r 4 < 32 := by
  by_cases h : 0 ≤ r
  · rw [Int.tdiv_eq_ediv h (by norm_num)]; omega
  · rw [tdiv_four_small_neg r h1 (by omega)]; omega

theorem mem_load_idx (c : CPU) (r b : Int) (hmr : c.memread = 1)
    (hrw : c.regwrite = 1) (hmt : c.memtoreg = 1)
    (hi0 : 0 ≤ Int.tdiv r 4) (hi1 : Int.tdiv r 4 < c.d_mem.length)
    (hw0 : 0 ≤ c.writeToReg) (hw1 : c.writeToReg < c.registerfile.length) :
    mem c r b = some { c with registerfile := c.registerfile.set c.writeToReg.toNat
                                                (c.word (Int.tdiv r 4)),
                              touched_register := (true, c.writeToReg),
                              total_clock_cycles := wrap32 (c.total_clock_cycles + 1) } := by
  have hg := vecGet_word c (Int.tdiv r 4) hi0 hi1
  simp [mem, writeback, hmr, hrw, hmt, hg, vecSet_eq _ _ _ hw0 hw1]

theorem mem_store_idx (c : CPU) (r b : Int) (hmr : c.memread = 0) (hmw : c.memwrite = 1)
    (hi0 : 0 ≤ Int.tdiv r 4) (hi1 : Int.tdiv r 4 < c.d_mem.length) :
    mem c r b = some { c with d_mem := c.d_mem.set (Int.tdiv r 4).toNat b,
                              touched_memory := (true, Int.tdiv r 4),
                              total_clock_cycles := wrap32 (c.total_clock_cycles + 1) } := by
  simp [mem, hmr, hmw, vecSet_eq c.d_mem (Int.tdiv r 4) b hi0 hi1]

/-- One cycle step on an `LW` instruction whose memory index
`(R[rs] + signext(imm)) / 4` (division truncating toward zero) is within
`0 .. 31`, that is whose effective address lies strictly between -4 and 128. -/
theorem lw_step (c : CPU) (file : List (List Char)) (str : List Char) (f : Fields)
    (hc : WellFormed c) (hline : file[(c.pc / 4).toNat]? = some str)
    (hstr : IsInstruction str) (hf : decodeFields str = some f)
    (hop : f.opcode = 35)
    (hA0 : -4 < c.reg f.rs + signext16 f.imm) (hA1 : c.reg f.rs + signext16 f.imm < 128) :
    ∃ c', fetch c file = some (true, c') ∧
      c'.registerfile
        = c.registerfile.set f.rt.toNat (c.word (Int.tdiv (c.reg f.rs + signext16 f.imm) 4)) ∧
      c'.touched_register = (true, f.rt) ∧ c'.d_mem = c.d_mem ∧ memoryWasTouched c' = false ∧
      c'.pc = wrap32 (c.pc + 4) ∧
      c'.total_clock_cycles = wrap32 (c.total_clock_cycles + 1) := by
  obtain ⟨hrl, hml, hrr, hp0, hp1⟩ := hc
  obtain ⟨-, ⟨rs0, rs1⟩, ⟨rt0, rt1⟩, -, -, -, ⟨im0, im1⟩, -⟩ :=
    decodeFields_bounds str f hstr hf
  simp only [NUM_REGS, NUM_MEMS] at hrl hml
  have hse := signExtended_eq f.imm im0 im1
  have hga := vecGet_reg c f.rs rs0 (by omega)
  have hgb := vecGet_reg c f.rt rt0 (by omega)
  have hw : wrap32 (c.reg f.rs + signext16 f.imm) = c.reg f.rs + signext16 f.imm :=
    wrap32_eq_self (by omega) (by omega)
  obtain ⟨hi0, hi1⟩ := tdiv_four_index _ hA0 hA1
  rw [fetch_line c file str f hp0 hline hf]
  simp [decodeBody, controlunit, hop, R_TYPE, LW, resetTouchedMemory, resetTouchedRegister,
    hse, fourMostSigFromPC_eq, hp0, hp1, hga, hgb]
  rw [execute_iadd _ _ _ _ _ rfl rfl rfl rfl rfl, hw]
  rw [mem_load_idx _ _ _ rfl rfl rfl hi0 (by simp; omega) rt0 (by simp; omega)]
  simp [memoryWasTouched, CPU.word]

/-- One cycle step on an `SW` instruction whose memory index is within
`0 .. 31`. -/
theorem sw_step (c : CPU) (file : List (List Char)) (str : List Char) (f : Fields)
    (hc : WellFormed c) (hline : file[(c.pc / 4).toNat]? = some str)
    (hstr : IsInstruction str) (hf : decodeFields str = some f)
    (hop : f.opcode = 43)
    (hA0 : -4 < c.reg f.rs + signext16 f.imm) (hA1 : c.reg f.rs + signext16 f.imm < 128) :
    ∃ c', fetch c file = some (true, c') ∧
      c'.d_mem = c.d_mem.set (Int.tdiv (c.reg f.rs + signext16 f.imm) 4).toNat (c.reg f.rt) ∧
      c'.touched_memory = (true, Int.tdiv (c.reg f.rs + signext16 f.imm) 4) ∧
      c'.registerfile = c.registerfile ∧ registerWasTouched c' = false ∧
      c'.pc = wrap32 (c.pc + 4) ∧
      c'.total_clock_cycles = wrap32 (c.total_clock_cycles + 1) := by
  obtain ⟨hrl, hml, hrr, hp0, hp1⟩ := hc
  obtain ⟨-, ⟨rs0, rs1⟩, ⟨rt0, rt1⟩, -, -, -, ⟨im0, im1⟩, -⟩ :=
    decodeFields_bounds str f hstr hf
  simp only [NUM_REGS, NUM_MEMS] at hrl hml
  have hse := signExtended_eq f.imm im0 im1
  have hga := vecGet_reg c f.rs rs0 (by omega)
  have hgb := vecGet_reg c f.rt rt0 (by omega)
  have hw : wrap32 (c.reg f.rs + signext16 f.imm) = c.reg f.rs + signext16 f.imm :=
    wrap32_eq_self (by omega) (by omega)
  obtain ⟨hi0, hi1⟩ := tdiv_four_index _ hA0 hA1
  rw [fetch_line c file str f hp0 hline hf]
  by_cases hrd : c.regdest = 0 <;>
    simp [decodeBody, controlunit, hop, R_TYPE, LW, SW, resetTouchedMemory, resetTouchedRegister,
      hse, fourMostSigFromPC_eq, hp0, hp1, hga, hgb, hrd] <;>
    rw [execute_iadd _ _ _ _ _ rfl rfl rfl rfl rfl, hw] <;>
    rw [mem_store_idx _ _ _ rfl rfl hi0 (by simp; omega)] <;>
    simp [registerWasTouched]

/-! ### Seeded fresh states -/

theorem vecSet_length (v w : List Int) (i x : Int) (h : vecSet v i x = some w) :
    w.length = v.length := by
  unfold vecSet at h
  split_ifs at h
  cases h
  simp

theorem vecSet_range (v w : List Int) (i x : Int) (h : vecSet v i x = some w)
    (hv : ∀ y ∈ v, IsInt32 y) (hx : IsInt32 x) : ∀ y ∈ w, IsInt32 y := by
  unfold vecSet at h
  split_ifs at h
  cases h
  intro y hy
  rcases List.mem_or_eq_of_mem_set hy with h1 | h1
  · exact hv y h1
  · rw [h1]; exact hx

theorem seeded_inv (c : CPU) (h : Seeded c) :
    WellFormed c ∧ c.pc = 0 ∧ c.total_clock_cycles = 0 ∧ c.memtoreg = 0 := by
  induction h with
  | fresh i1 i0 => cases i1 <;> cases i0 <;> exact ⟨by decide, rfl, rfl, rfl⟩
  | register c c' i val _ hval hup ih =>
    obtain ⟨⟨h1, h2, h3, h4, h5⟩, h6, h7, h8⟩ := ih
    unfold updateRegisterFile at hup
    obtain ⟨r, hr, hup⟩ := Option.bind_eq_some.1 hup
    cases hup
    exact ⟨⟨by rw [← h1]; exact vecSet_length _ _ _ _ hr, h2,
      vecSet_range _ _ _ _ hr h3 hval, h4, h5⟩, h6, h7, h8⟩
  | memory c c' i val _ hval hup ih =>
    obtain ⟨⟨h1, h2, h3, h4, h5⟩, h6, h7, h8⟩ := ih
    unfold updateMemory at hup
    obtain ⟨r, hr, hup⟩ := Option.bind_eq_some.1 hup
    cases hup
    exact ⟨⟨h1, by rw [← h2]; exact vecSet_length _ _ _ _ hr, h3, h4, h5⟩, h6, h7, h8⟩

/-! ### Fields as bit slices -/

theorem bitsValue_slice (l : List Char) (pos len : Nat) (h : pos + len ≤ l.length) :
    bitsValue ((l.drop pos).take len)
      = bitsValue l / 2 ^ (l.length - pos - len) % 2 ^ len := by
  have hl : l = l.take pos ++ ((l.drop pos).take len ++ (l.drop pos).drop len) := by
    rw [List.take_append_drop, List.take_append_drop]
  have hB0 := bitsValue_nonneg ((l.drop pos).take len)
  have hB1 := bitsValue_lt ((l.drop pos).take len)
  have hC0 := bitsValue_nonneg ((l.drop pos).drop len)
  have hC1 := bitsValue_lt ((l.drop pos).drop len)
  have hlenB : ((l.drop pos).take len).length = len := by
    simp [List.length_take, List.length_drop]; omega
  have hlenC : ((l.drop pos).drop len).length = l.length - pos - len := by
    simp [List.length_drop]; omega
  rw [hlenB] at hB1
  rw [hlenC] at hC1
  have hv : bitsValue l
      = (bitsValue (l.take pos) * 2 ^ len + bitsValue ((l.drop pos).take len))
          * 2 ^ (l.length - pos - len) + bitsValue ((l.drop pos).drop len) := by
    conv_lhs => rw [hl]
    rw [bitsValue_append, bitsValue_append, List.length_append, hlenB, hlenC, pow_add]
    ring
  have hc : (0 : Int) < 2 ^ (l.length - pos - len) := by positivity
  have hb : (0 : Int) < 2 ^ len := by positivity
  rw [hv, add_comm, Int.add_mul_ediv_right _ _ (ne_of_gt hc),
    Int.ediv_eq_zero_of_lt hC0 hC1, zero_add, add_comm, Int.add_mul_emod_self,
    Int.emod_eq_of_lt hB0 hB1]

theorem isInstruction_bitsetToString (w : Int) : IsInstruction (bitsetToString 32 w) :=
  ⟨length_bitsetToString 32 w, bitsetToString_bin 32 w⟩

theorem bitsValue_eq_sum (s : List Char) :
    bitsValue s = ∑ i ∈ Finset.range s.length,
      (if s[i]? = some '1' then 1 else 0) * 2 ^ (s.length - 1 - i) := by
  induction s with
  | nil => simp [bitsValue]
  | cons ch rest ih =>
    rw [List.length_cons, Finset.sum_range_succ', bitsValue_cons, ih]
    have h1 : ∀ i ∈ Finset.range rest.length,
        (if (ch :: rest)[i + 1]? = some '1' then (1 : Int) else 0)
            * 2 ^ (rest.length + 1 - 1 - (i + 1))
          = (if rest[i]? = some '1' then 1 else 0) * 2 ^ (rest.length - 1 - i) := by
      intro i hi
      have : rest.length + 1 - 1 - (i + 1) = rest.length - 1 - i := by omega
      rw [this]
      simp
    rw [Finset.sum_congr rfl h1]
    simp [add_comm]

/-! ### Supported instructions -/

theorem alu_funct_of_ne_jr (fn : Int)
    (h : fn = 32 ∨ fn = 34 ∨ fn = 36 ∨ fn = 37 ∨ fn = 42 ∨ fn = 39 ∨ fn = 8) (h8 : fn ≠ 8) :
    fn = 32 ∨ fn = 34 ∨ fn = 36 ∨ fn = 37 ∨ fn = 42 ∨ fn = 39 := by
  omega

theorem index_in_range (r : Int) (h0 : 0 ≤ Int.tdiv r 4) (h1 : Int.tdiv r 4 < 32) :
    -4 < r ∧ r < 128 := by
  by_cases h : 0 ≤ r
  · rw [Int.tdiv_eq_ediv h (by norm_num)] at h0 h1
    omega
  · have e : Int.tdiv r 4 = -((-r) / 4) := by
      have := Int.neg_tdiv (-r) 4
      rw [neg_neg] at this
      rw [this, Int.tdiv_eq_ediv (by omega) (by norm_num)]
    rw [e] at h0
    omega

/-- The cycle count and `pc` after one cycle step on a supported instruction:
the step returns `true`; `pc` is `pc + 4`, the branch target, the jump target
or (for `JR`) the value of `rs`; the cycle count grows by 1, or by 2 for a
`JAL` executed with `memtoreg` left set. -/
theorem supported_step (c : CPU) (file : List (List Char)) (str : List Char) (f : Fields)
    (hc : WellFormed c) (hline : file[(c.pc / 4).toNat]? = some str)
    (hstr : IsInstruction str) (hf : decodeFields str = some f) (hs : Supported c f) :
    ∃ c', fetch c file = some (true, c') ∧
      (c'.pc = wrap32 (c.pc + 4) ∨ c'.pc = wrap32 (c.pc + 4 + signext16 f.imm * 4) ∨
        c'.pc = f.addr * 4 + c.pc / 268435456 * 268435456 ∨
        (f.opcode = 0 ∧ f.funct = 8 ∧ c'.pc = c.reg f.rs)) ∧
      (c'.total_clock_cycles = wrap32 (c.total_clock_cycles + 1) ∨
        (f.opcode = 3 ∧ c.memtoreg ≠ 0 ∧
          c'.total_clock_cycles = wrap32 (wrap32 (c.total_clock_cycles + 1) + 1))) := by
  rcases hs with ⟨hop, hfn⟩ | ⟨hop, hi0, hi1⟩ | hop | hop | hop
  · by_cases h8 : f.funct = 8
    · obtain ⟨c', h1, h2, -, -, -, -, h7⟩ := jr_step c file str f hc hline hstr hf hop h8
      exact ⟨c', h1, Or.inr (Or.inr (Or.inr ⟨hop, h8, h2⟩)), Or.inl h7⟩
    · have hfn6 := alu_funct_of_ne_jr f.funct hfn h8
      obtain ⟨c', h1, -, -, -, -, h6, h7⟩ := rtype_step c file str f hc hline hstr hf hop hfn6
      exact ⟨c', h1, Or.inl h6, Or.inl h7⟩
  · obtain ⟨hA0, hA1⟩ := index_in_range _ hi0 hi1
    rcases hop with hop | hop
    · obtain ⟨c', h1, -, -, -, -, h6, h7⟩ := lw_step c file str f hc hline hstr hf hop hA0 hA1
      exact ⟨c', h1, Or.inl h6, Or.inl h7⟩
    · obtain ⟨c', h1, -, -, -, -, h6, h7⟩ := sw_step c file str f hc hline hstr hf hop hA0 hA1
      exact ⟨c', h1, Or.inl h6, Or.inl h7⟩
  · obtain ⟨c', h1, h2, -, -, -, -, h7⟩ := beq_step c file str f hc hline hstr hf hop
    refine ⟨c', h1, ?_, Or.inl h7⟩
    split_ifs at h2
    · exact Or.inr (Or.inl h2)
    · exact Or.inl h2
  · obtain ⟨c', h1, -, h3, -, -, -, -, h7⟩ := j_step c file str f hc hline hstr hf hop
    exact ⟨c', h1, Or.inr (Or.inr (Or.inl h3)), Or.inl h7⟩
  · obtain ⟨c', h1, h2, -, -, -, h6, h7⟩ := jal_cycle c file str f hc hline hstr hf hop
    refine ⟨c', h1, Or.inr (Or.inr (Or.inl h2)), ?_⟩
    by_cases hm : c.memtoreg = 0
    · exact Or.inl (h6 hm).2
    · exact Or.inr ⟨hop, hm, (h7 hm).2⟩

/-! ### Leftover control signals -/

/-- Two states that agree on `pc`, registers, data memory and cycle count give,
on every supported instruction other than `JAL`, results that agree on `pc`,
registers, data memory, cycle count and both touched flags, whatever their
control-signal fields are. -/
theorem no_leak_other_than_jal (c1 c2 : CPU) (file : List (List Char)) (str : List Char)
    (f : Fields) (hc1 : WellFormed c1) (hc2 : WellFormed c2) (hpc : c1.pc = c2.pc)
    (hR : c1.registerfile = c2.registerfile) (hM : c1.d_mem = c2.d_mem)
    (hC : c1.total_clock_cycles = c2.total_clock_cycles)
    (hline : file[(c1.pc / 4).toNat]? = some str)
    (hstr : IsInstruction str) (hf : decodeFields str = some f) (hs : Supported c1 f)
    (hnj : f.opcode ≠ 3) :
    ∃ c1' c2', fetch c1 file = some (true, c1') ∧ fetch c2 file = some (true, c2') ∧
      c1'.pc = c2'.pc ∧ c1'.registerfile = c2'.registerfile ∧ c1'.d_mem = c2'.d_mem ∧
      c1'.total_clock_cycles = c2'.total_clock_cycles ∧
      registerWasTouched c1' = registerWasTouched c2' ∧
      memoryWasTouched c1' = memoryWasTouched c2' := by
  have hreg : ∀ i, c1.reg i = c2.reg i := fun i => by simp [CPU.reg, hR]
  have hword : ∀ i, c1.word i = c2.word i := fun i => by simp [CPU.word, hM]
  have hline2 : file[(c2.pc / 4).toNat]? = some str := by rw [← hpc]; exact hline
  rcases hs with ⟨hop, hfn⟩ | ⟨hop, hi0, hi1⟩ | hop | hop | hop
  · by_cases h8 : f.funct = 8
    · obtain ⟨a, a1, a2, a3, a4, a5, a6, a7⟩ := jr_step c1 file str f hc1 hline hstr hf hop h8
      obtain ⟨b, b1, b2, b3, b4, b5, b6, b7⟩ := jr_step c2 file str f hc2 hline2 hstr hf hop h8
      exact ⟨a, b, a1, b1, by rw [a2, b2, hreg], by rw [a3, b3, hR], by rw [a4, b4, hM],
        by rw [a7, b7, hC], by rw [a5, b5], by rw [a6, b6]⟩
    · have hfn6 := alu_funct_of_ne_jr f.funct hfn h8
      obtain ⟨a, a1, a2, a3, a4, a5, a6, a7⟩ :=
        rtype_step c1 file str f hc1 hline hstr hf hop hfn6
      obtain ⟨b, b1, b2, b3, b4, b5, b6, b7⟩ :=
        rtype_step c2 file str f hc2 hline2 hstr hf hop hfn6
      exact ⟨a, b, a1, b1, by rw [a6, b6, hpc], by rw [a2, b2, hR, hreg, hreg],
        by rw [a3, b3, hM], by rw [a7, b7, hC],
        by simp [registerWasTouched, a4, b4], by rw [a5, b5]⟩
  · obtain ⟨hA0, hA1⟩ := index_in_range _ hi0 hi1
    rcases hop with hop | hop
    · obtain ⟨a, a1, a2, a3, a4, a5, a6, a7⟩ :=
        lw_step c1 file str f hc1 hline hstr hf hop hA0 hA1
      obtain ⟨b, b1, b2, b3, b4, b5, b6, b7⟩ :=
        lw_step c2 file str f hc2 hline2 hstr hf hop (by rw [← hreg]; exact hA0)
          (by rw [← hreg]; exact hA1)
      exact ⟨a, b, a1, b1, by rw [a6, b6, hpc], by rw [a2, b2, hR, hreg, hword],
        by rw [a4, b4, hM], by rw [a7, b7, hC],
        by simp [registerWasTouched, a3, b3], by rw [a5, b5]⟩
    · obtain ⟨a, a1, a2, a3, a4, a5, a6, a7⟩ :=
        sw_step c1 file str f hc1 hline hstr hf hop hA0 hA1
      obtain ⟨b, b1, b2, b3, b4, b5, b6, b7⟩ :=
        sw_step c2 file str f hc2 hline2 hstr hf hop (by rw [← hreg]; exact hA0)
          (by rw [← hreg]; exact hA1)
      exact ⟨a, b, a1, b1, by rw [a6, b6, hpc], by rw [a4, b4, hR],
        by rw [a2, b2, hM, hreg, hreg], by rw [a7, b7, hC],
        by rw [a5, b5], by simp [memoryWasTouched, a3, b3]⟩
  · obtain ⟨a, a1, a2, a3, a4, a5, a6, a7⟩ := beq_step c1 file str f hc1 hline hstr hf hop
    obtain ⟨b, b1, b2, b3, b4, b5, b6, b7⟩ := beq_step c2 file str f hc2 hline2 hstr hf hop
    exact ⟨a, b, a1, b1, by rw [a2, b2, hpc, hreg, hreg], by rw [a3, b3, hR],
      by rw [a4, b4, hM], by rw [a7, b7, hC], by rw [a5, b5], by rw [a6, b6]⟩
  · obtain ⟨a, a1, -, a2, a3, a4, a5, a6, a7⟩ := j_step c1 file str f hc1 hline hstr hf hop
    obtain ⟨b, b1, -, b2, b3, b4, b5, b6, b7⟩ := j_step c2 file str f hc2 hline2 hstr hf hop
    exact ⟨a, b, a1, b1, by rw [a2, b2, hpc], by rw [a3, b3, hR],
      by rw [a4, b4, hM], by rw [a7, b7, hC], by rw [a5, b5], by rw [a6, b6]⟩
  · exact absurd hop hnj

/-! ### Control signals across a cycle

`controlunit` is the only function that assigns a control signal, so the
signals a cycle leaves are those `controlunit` produced at its start; for an
opcode it does not handle they are the ones the cycle found. -/

theorem controlunit_other (c : CPU) (opcode : Int)
    (h : opcode ≠ 0 ∧ opcode ≠ 35 ∧ opcode ≠ 43 ∧ opcode ≠ 4 ∧ opcode ≠ 2 ∧ opcode ≠ 3) :
    controlunit c opcode = c := by
  obtain ⟨h0, h1, h2, h3, h4, h5⟩ := h
  simp [controlunit, R_TYPE, LW, SW, BEQ, J, JAL, h0, h1, h2, h3, h4, h5]

theorem alucontrol_signals (c : CPU) (i fn : Int) :
    controlSignals (alucontrol c i fn) = controlSignals c := by
  have e1 : ∀ x : Int, controlSignals { c with alu_op := x } = controlSignals c := fun _ => rfl
  have e2 : controlSignals { c with alu_op := JR, regtopc := 1 } = controlSignals c := rfl
  simp only [alucontrol, apply_ite controlSignals, e1, e2, ite_self]

theorem writeback_signals (c c' : CPU) (r d : Int) (h : writeback c r d = some c') :
    controlSignals c' = controlSignals c := by
  unfold writeback at h
  split_ifs at h
  · obtain ⟨x, -, h⟩ := Option.bind_eq_some.1 h
    cases h
    rfl
  · obtain ⟨x, -, h⟩ := Option.bind_eq_some.1 h
    cases h
    rfl
  · obtain ⟨x, -, h⟩ := Option.bind_eq_some.1 h
    cases h
    rfl
  · cases h
    rfl

theorem mem_signals (c c' : CPU) (r b : Int) (h : mem c r b = some c') :
    controlSignals c' = controlSignals c := by
  unfold mem at h
  split_ifs at h
  · obtain ⟨x, -, h⟩ := Option.bind_eq_some.1 h
    exact writeback_signals c c' _ _ h
  · obtain ⟨x, -, h⟩ := Option.bind_eq_some.1 h
    cases h
    rfl
  · exact writeback_signals c c' _ _ h

theorem execute_signals (c c' : CPU) (se a b fn : Int) (h : execute c se a b fn = some c') :
    controlSignals c' = controlSignals c := by
  unfold execute at h
  simp only at h
  have e := alucontrol_signals c
    ((if c.insttype1 then 1 else 0) * 2 + (if c.insttype0 then 1 else 0) * 1) fn
  generalize alucontrol c
    ((if c.insttype1 then 1 else 0) * 2 + (if c.insttype0 then 1 else 0) * 1) fn = c1 at h e
  rw [← e]
  have key : ∀ (c2 : CPU) (r : Int), controlSignals c2 = controlSignals c1 →
      mem c2 r b = some c' → controlSignals c' = controlSignals c1 := by
    intro c2 r h1 h2
    rw [← h1]
    exact mem_signals c2 c' r b h2
  split_ifs at h
  all_goals first
    | (cases h; rfl)
    | (split at h
       · cases h
       · split_ifs at h
         all_goals first
           | (cases h; rfl)
           | (refine key _ _ ?_ h; rfl))

theorem decodeBody_signals (c c' : CPU) (f : Fields) (h : decodeBody c f = some c') :
    controlSignals c' = controlSignals (controlunit c f.opcode) := by
  unfold decodeBody at h
  generalize controlunit c f.opcode = c1 at h
  simp only [Option.bind_eq_bind, Option.pure_def, Option.bind_eq_some] at h
  obtain ⟨imm, -, top, -, h⟩ := h
  have key : ∀ (c2 c3 : CPU), controlSignals c2 = controlSignals c1 →
      (if c2.jump ≠ 0 then
        if c2.jlink ≠ 0 then
          (writeback { c2 with writeToReg := RA } c2.next_pc 999).bind fun c =>
            some { c with pc := c.jump_target,
                          total_clock_cycles := wrap32 (c.total_clock_cycles + 1) }
        else some c2
      else (vecGet c2.registerfile f.rs).bind fun a =>
        (vecGet c2.registerfile f.rt).bind fun b => execute c2 imm a b f.funct) = some c3 →
      controlSignals c3 = controlSignals c1 := by
    intro c2 c3 h1 h5
    rw [← h1]
    split_ifs at h5
    · obtain ⟨c4, hw, h5⟩ := Option.bind_eq_some.1 h5
      cases h5
      exact writeback_signals { c2 with writeToReg := RA } c4 _ _ hw
    · cases h5
      rfl
    · obtain ⟨a, -, h5⟩ := Option.bind_eq_some.1 h5
      obtain ⟨b, -, h5⟩ := Option.bind_eq_some.1 h5
      exact execute_signals c2 c3 _ _ _ _ h5
  exact key { c1 with regtopc := 0, writeToReg := if c1.regdest ≠ 0 then f.rd else f.rt,
                      jump_target := wrap32 (shiftLeftTwo f.addr + top) } c' rfl h

theorem controlunit_comm (c : CPU) (k : Int) (a b : Bool × Int) (n : Int) :
    controlunit { c with touched_register := a, touched_memory := b, next_pc := n } k
      = { controlunit c k with touched_register := a, touched_memory := b, next_pc := n } := by
  unfold controlunit
  split_ifs <;> rfl

/-- A cycle step that returns on an existing line returns `true`, and leaves the
control signals `controlunit` produced for the opcode of that line. -/
theorem fetch_signals (c c' : CPU) (file : List (List Char)) (str : List Char) (f : Fields)
    (b : Bool) (hpc : 0 ≤ c.pc) (hline : file[(c.pc / 4).toNat]? = some str)
    (hf : decodeFields str = some f) (h : fetch c file = some (b, c')) :
    b = true ∧ controlSignals c' = controlSignals (controlunit c f.opcode) := by
  rw [fetch_line c file str f hpc hline hf] at h
  split at h
  · cases h
  · rename_i c2 hd
    have hs := decodeBody_signals _ c2 f hd
    simp only [resetTouchedMemory, resetTouchedRegister] at hs
    rw [controlunit_comm] at hs
    have hs2 : controlSignals c2 = controlSignals (controlunit c f.opcode) := hs
    rw [← hs2]
    split_ifs at h <;> cases h <;> exact ⟨rfl, rfl⟩

theorem controlunit_idem (c d : CPU) (k : Int)
    (h : controlSignals d = controlSignals (controlunit c k)) : controlunit d k = d := by
  unfold controlunit at h ⊢
  split_ifs at h ⊢
  all_goals
    simp only [controlSignals, Prod.mk.injEq, List.cons.injEq, and_true] at h
    obtain ⟨⟨h1, h2, h3, h4, h5, h6, h7, h8, h9⟩, h10, h11⟩ := h
    cases d
    simp_all

theorem decodeBody_opcode (c : CPU) (f : Fields) (k : Int) (h1 : controlunit c f.opcode = c)
    (h2 : controlunit c k = c) : decodeBody c f = decodeBody c { f with opcode := k } := by
  unfold decodeBody
  simp only [h1, h2]

/-- After a cycle on a line with opcode `k`, supported or not, running
`controlunit` for `k` again changes nothing: the state has the signals of
`k`. -/
theorem controlunit_fixes_after_step (c c' : CPU) (file : List (List Char)) (str : List Char)
    (f : Fields) (b : Bool) (hpc : 0 ≤ c.pc) (hline : file[(c.pc / 4).toNat]? = some str)
    (hf : decodeFields str = some f) (h : fetch c file = some (b, c')) :
    controlunit c' f.opcode = c' :=
  controlunit_idem c c' f.opcode (fetch_signals c c' file str f b hpc hline hf h).2

/-- The step on an unsupported opcode need not have a defined result: after
`JR $ra` the leftover `alu_op` is 100, the R-type signals are still set, and the
line with opcode 1 and function code 0 reaches the ALU with no operation
selected, so `alu_result` is read before it is assigned. -/
theorem opcode_one_after_jr :
    fetch jrState [jrLine] = some (true, afterJrState) ∧ afterJrState.pc = 8 ∧
    fetch afterJrState [jrLine, jrLine, opcodeOneLine] = none := by
  refine ⟨rfl, by decide, rfl⟩

/-! ### The members the constructor leaves unassigned

`insttype1` and `insttype0` are read by `execute` only; on an R-type, `LW`, `SW`
or `BEQ` line `controlunit` assigns both before that, so the cycle does not
depend on what they held. -/

theorem decodeBody_congr (c d : CPU) (f : Fields)
    (h : controlunit c f.opcode = controlunit d f.opcode) : decodeBody c f = decodeBody d f := by
  unfold decodeBody
  rw [h]

/-- On an R-type, `LW`, `SW` or `BEQ` line the cycle step does not depend on the
values `insttype1` and `insttype0` held before it. -/
theorem fetch_insttype_irrelevant (c : CPU) (file : List (List Char)) (str : List Char)
    (f : Fields) (i1 i0 : Bool) (hpc : 0 ≤ c.pc) (hline : file[(c.pc / 4).toNat]? = some str)
    (hf : decodeFields str = some f)
    (hop : f.opcode = 0 ∨ f.opcode = 35 ∨ f.opcode = 43 ∨ f.opcode = 4) :
    fetch { c with insttype1 := i1, insttype0 := i0 } file = fetch c file := by
  rw [fetch_line { c with insttype1 := i1, insttype0 := i0 } file str f hpc hline hf,
    fetch_line c file str f hpc hline hf]
  rw [decodeBody_congr _
    { resetTouchedMemory (resetTouchedRegister c) with next_pc := wrap32 (c.pc + 4) } f ?_]
  rcases hop with h | h | h | h <;> rw [h] <;> rfl

/-- The first cycles used as failing inputs for the stale `memtoreg` defect are
the same for every value of the two members the constructor leaves
unassigned. -/
theorem first_cycle_any_construction (i1 i0 : Bool) :
    fetch (CPU.construct i1 i0) lwJalProgram = fetch CPU.new lwJalProgram ∧
    fetch (CPU.construct i1 i0) [addT0Line, jalLine] = fetch CPU.new [addT0Line, jalLine] := by
  have e : CPU.construct i1 i0 = { CPU.new with insttype1 := i1, insttype0 := i0 } := rfl
  have hpc : 0 ≤ CPU.new.pc := by decide
  rw [e]
  constructor
  · exact fetch_insttype_irrelevant CPU.new lwJalProgram lwLine ⟨35, 0, 8, 0, 0, 0, 0, 524288⟩
      i1 i0 hpc (by decide) rfl (by decide)
  · exact fetch_insttype_irrelevant CPU.new [addT0Line, jalLine] addT0Line
      ⟨0, 0, 0, 8, 0, 32, 16416, 16416⟩ i1 i0 hpc (by decide) rfl (by decide)

/-! ## The claims -/

/-- C1 (evaluation at the failing input): on a fresh CPU the program
`LW $t0, 0($zero); JAL 2` makes two calls of `fetch` return `true`, and
`getTotalClockCycles()` is then 3, not 2: the `JAL` that follows the load is
counted twice. -/
theorem cycle_count_after_load_then_jal :
    (runCycles lwJalProgram 2 CPU.new).map getTotalClockCycles = some 3 := by
  decide

/-- C2 (evaluation at the failing input): after `LW $t0, 0($zero)` on a fresh
CPU, the `JAL 2` executed at `pc = 4` leaves 999 in register 31, not
`pc + 4 = 8`; `pc` is the jump target 8. -/
theorem jal_link_after_load :
    ∃ c1 c2, fetch CPU.new lwJalProgram = some (true, c1) ∧ c1.pc = 4 ∧ c1.memtoreg = 1 ∧
      fetch c1 lwJalProgram = some (true, c2) ∧ c2.reg 31 = 999 ∧ c2.pc = 8 ∧
      c2.touched_register = (true, 31) := by
  refine ⟨_, _, rfl, ?_, ?_, rfl, ?_, ?_, ?_⟩ <;> decide

/-- C3: for every prior state, `controlunit` gives each control signal the value
of the table of section 4.2 for the six supported opcodes (entries that are a
dash in the table are not constrained). -/
theorem controlunit_table (c : CPU) :
    (let d := controlunit c R_TYPE
     d.regdest = 1 ∧ d.alusrc = 0 ∧ d.memtoreg = 0 ∧ d.regwrite = 1 ∧ d.memread = 0 ∧
     d.memwrite = 0 ∧ d.branch = 0 ∧ d.jump = 0 ∧ d.jlink = 0 ∧
     d.insttype1 = true ∧ d.insttype0 = false) ∧
    (let d := controlunit c LW
     d.regdest = 0 ∧ d.alusrc = 1 ∧ d.memtoreg = 1 ∧ d.regwrite = 1 ∧ d.memread = 1 ∧
     d.memwrite = 0 ∧ d.branch = 0 ∧ d.jump = 0 ∧ d.jlink = 0 ∧
     d.insttype1 = false ∧ d.insttype0 = false) ∧
    (let d := controlunit c SW
     d.alusrc = 1 ∧ d.regwrite = 0 ∧ d.memread = 0 ∧ d.memwrite = 1 ∧ d.branch = 0 ∧
     d.jump = 0 ∧ d.jlink = 0 ∧ d.insttype1 = false ∧ d.insttype0 = false) ∧
    (let d := controlunit c BEQ
     d.alusrc = 0 ∧ d.regwrite = 0 ∧ d.memread = 0 ∧ d.memwrite = 0 ∧ d.branch = 1 ∧
     d.jump = 0 ∧ d.jlink = 0 ∧ d.insttype1 = false ∧ d.insttype0 = true) ∧
    (let d := controlunit c J
     d.regwrite = 0 ∧ d.memread = 0 ∧ d.memwrite = 0 ∧ d.branch = 0 ∧ d.jump = 1 ∧
     d.jlink = 0) ∧
    (let d := controlunit c JAL
     d.regwrite = 1 ∧ d.memread = 0 ∧ d.memwrite = 0 ∧ d.branch = 0 ∧ d.jump = 1 ∧
     d.jlink = 1) := by
  simp [controlunit, R_TYPE, LW, SW, BEQ, J, JAL]

/-- C4: one cycle step on an R-type instruction with function code 32 (ADD),
34 (SUB), 36 (AND), 37 (OR), 42 (SLT) or 39 (NOR) returns `true`, sets register
`rd` to the operation applied to the old values of `rs` and `rt` (ADD and SUB
in 32-bit two's complement), leaves every other register and data memory
unchanged, records `rd` as the touched register, and adds 4 to `pc` and 1 to
the cycle count (as 32-bit `int` sums). -/
theorem rtype_alu_cycle (c : CPU) (file : List (List Char)) (str : List Char) (f : Fields)
    (hc : WellFormed c) (hline : file[(c.pc / 4).toNat]? = some str)
    (hstr : IsInstruction str) (hf : decodeFields str = some f)
    (hop : f.opcode = 0)
    (hfn : f.funct = 32 ∨ f.funct = 34 ∨ f.funct = 36 ∨ f.funct = 37 ∨ f.funct = 42 ∨ f.funct = 39) :
    ∃ c', fetch c file = some (true, c') ∧
      c'.registerfile = c.registerfile.set f.rd.toNat (rtypeOp f.funct (c.reg f.rs) (c.reg f.rt)) ∧
      c'.d_mem = c.d_mem ∧ c'.touched_register = (true, f.rd) ∧ memoryWasTouched c' = false ∧
      c'.pc = wrap32 (c.pc + 4) ∧
      c'.total_clock_cycles = wrap32 (c.total_clock_cycles + 1) :=
  rtype_step c file str f hc hline hstr hf hop hfn

/-- C4, witness of the specification: with `$t1 = 5` and `$t2 = 7` on a fresh
CPU, `ADD $t3, $t1, $t2` gives `$t3 = 12`, `pc = 4`, cycle count 1 and leaves
data memory untouched. -/
theorem rtype_alu_cycle_witness :
    ∃ c', fetch addState [addLine] = some (true, c') ∧
      c'.registerfile = addState.registerfile.set 11 12 ∧
      c'.d_mem = addState.d_mem ∧ c'.touched_register = (true, 11) ∧
      memoryWasTouched c' = false ∧ c'.pc = 4 ∧ c'.total_clock_cycles = 1 :=
  rtype_alu_cycle addState [addLine] addLine ⟨0, 9, 10, 11, 0, 32, 22560, 19552288⟩
    (by decide) (by decide) (by decide) rfl rfl (Or.inl rfl)

/-- C5: one cycle step on a `J` instruction returns `true` and sets `pc` to the
address field shifted left by two OR-ed with the top four bits of the old `pc`
(which is also their sum, as the code computes it); no register and no memory
word changes, neither touched flag is set, and the cycle count grows by 1. -/
theorem jump_cycle (c : CPU) (file : List (List Char)) (str : List Char) (f : Fields)
    (hc : WellFormed c) (hline : file[(c.pc / 4).toNat]? = some str)
    (hstr : IsInstruction str) (hf : decodeFields str = some f)
    (hop : f.opcode = 2) :
    ∃ c', fetch c file = some (true, c') ∧
      c'.pc = ((f.addr.toNat <<< 2 ||| (c.pc.toNat &&& 0xF0000000) : Nat) : Int) ∧
      c'.pc = f.addr * 4 + c.pc / 268435456 * 268435456 ∧
      c'.registerfile = c.registerfile ∧ c'.d_mem = c.d_mem ∧
      registerWasTouched c' = false ∧ memoryWasTouched c' = false ∧
      c'.total_clock_cycles = wrap32 (c.total_clock_cycles + 1) :=
  j_step c file str f hc hline hstr hf hop

/-- C5, witness of the specification: `J 4` executed at `pc = 4` gives
`pc = 16`. -/
theorem jump_cycle_witness :
    ∃ c', fetch jState [jLine, jLine] = some (true, c') ∧
      c'.pc = (((4 : Int).toNat <<< 2 ||| ((4 : Int).toNat &&& 0xF0000000) : Nat) : Int) ∧
      c'.pc = 16 ∧
      c'.registerfile = jState.registerfile ∧ c'.d_mem = jState.d_mem ∧
      registerWasTouched c' = false ∧ memoryWasTouched c' = false ∧
      c'.total_clock_cycles = 1 :=
  jump_cycle jState [jLine, jLine] jLine ⟨2, 0, 0, 0, 0, 4, 4, 4⟩
    (by decide) (by decide) (by decide) rfl rfl

/-- C6: one cycle step on a `BEQ` instruction returns `true`; `pc` becomes
`pc + 4 + (signext(imm) << 2)` when the registers `rs` and `rt` are equal and
`pc + 4` otherwise (32-bit `int` sums); no register and no memory word changes,
neither touched flag is set, and the cycle count grows by 1. -/
theorem beq_cycle (c : CPU) (file : List (List Char)) (str : List Char) (f : Fields)
    (hc : WellFormed c) (hline : file[(c.pc / 4).toNat]? = some str)
    (hstr : IsInstruction str) (hf : decodeFields str = some f)
    (hop : f.opcode = 4) :
    ∃ c', fetch c file = some (true, c') ∧
      c'.pc = (if c.reg f.rs = c.reg f.rt then wrap32 (c.pc + 4 + signext16 f.imm * 4)
               else wrap32 (c.pc + 4)) ∧
      c'.registerfile = c.registerfile ∧ c'.d_mem = c.d_mem ∧
      registerWasTouched c' = false ∧ memoryWasTouched c' = false ∧
      c'.total_clock_cycles = wrap32 (c.total_clock_cycles + 1) :=
  beq_step c file str f hc hline hstr hf hop

/-- C6, witness of the specification: `BEQ $zero, $zero, 3` at `pc = 0` is
taken and gives `pc = 16` with cycle count 1. -/
theorem beq_cycle_witness :
    ∃ c', fetch CPU.new [beqLine] = some (true, c') ∧ c'.pc = 16 ∧
      c'.registerfile = CPU.new.registerfile ∧ c'.d_mem = CPU.new.d_mem ∧
      registerWasTouched c' = false ∧ memoryWasTouched c' = false ∧
      c'.total_clock_cycles = 1 :=
  beq_cycle CPU.new [beqLine] beqLine ⟨4, 0, 0, 0, 0, 3, 3, 3⟩
    (by decide) (by decide) (by decide) rfl rfl

/-- C7: one cycle step on a `JR` instruction (opcode 0, function code 8)
returns `true` and sets `pc` to the old value of register `rs`, whatever the
other fields are; no register and no memory word changes, neither touched flag
is set, and the cycle count grows by 1. -/
theorem jr_cycle (c : CPU) (file : List (List Char)) (str : List Char) (f : Fields)
    (hc : WellFormed c) (hline : file[(c.pc / 4).toNat]? = some str)
    (hstr : IsInstruction str) (hf : decodeFields str = some f)
    (hop : f.opcode = 0) (hfn : f.funct = 8) :
    ∃ c', fetch c file = some (true, c') ∧ c'.pc = c.reg f.rs ∧
      c'.registerfile = c.registerfile ∧ c'.d_mem = c.d_mem ∧
      registerWasTouched c' = false ∧ memoryWasTouched c' = false ∧
      c'.total_clock_cycles = wrap32 (c.total_clock_cycles + 1) :=
  jr_step c file str f hc hline hstr hf hop hfn

/-- C7, an instance: `JR $ra` with `$ra = 8` gives `pc = 8` with cycle count 1. -/
theorem jr_cycle_witness :
    ∃ c', fetch jrState [jrLine] = some (true, c') ∧ c'.pc = 8 ∧
      c'.registerfile = jrState.registerfile ∧ c'.d_mem = jrState.d_mem ∧
      registerWasTouched c' = false ∧ memoryWasTouched c' = false ∧
      c'.total_clock_cycles = 1 :=
  jr_cycle jrState [jrLine] jrLine ⟨0, 31, 0, 0, 0, 8, 8, 65011720⟩
    (by decide) (by decide) (by decide) rfl rfl rfl

/-- C8: one cycle step on an `LW` instruction whose effective address
`A = R[rs] + signext(imm)` satisfies `0 ≤ A < 128` returns `true`, loads the
memory word of index `A / 4` into register `rt`, records `rt` as the touched
register, leaves every other register and data memory unchanged with the memory
flag clear, and adds 4 to `pc` and 1 to the cycle count. -/
theorem lw_cycle (c : CPU) (file : List (List Char)) (str : List Char) (f : Fields)
    (hc : WellFormed c) (hline : file[(c.pc / 4).toNat]? = some str)
    (hstr : IsInstruction str) (hf : decodeFields str = some f)
    (hop : f.opcode = 35)
    (hA0 : 0 ≤ c.reg f.rs + signext16 f.imm) (hA1 : c.reg f.rs + signext16 f.imm < 128) :
    ∃ c', fetch c file = some (true, c') ∧
      c'.registerfile
        = c.registerfile.set f.rt.toNat (c.word ((c.reg f.rs + signext16 f.imm) / 4)) ∧
      c'.touched_register = (true, f.rt) ∧ c'.d_mem = c.d_mem ∧ memoryWasTouched c' = false ∧
      c'.pc = wrap32 (c.pc + 4) ∧
      c'.total_clock_cycles = wrap32 (c.total_clock_cycles + 1) := by
  have e : Int.tdiv (c.reg f.rs + signext16 f.imm) 4 = (c.reg f.rs + signext16 f.imm) / 4 :=
    Int.tdiv_eq_ediv hA0 (by norm_num)
  obtain ⟨c', h⟩ := lw_step c file str f hc hline hstr hf hop (by omega) hA1
  rw [e] at h
  exact ⟨c', h⟩

/-- C8, an instance: `LW $t0, 0($zero)` with the memory word 0 holding 77 gives
`$t0 = 77`. -/
theorem lw_cycle_witness :
    ∃ c', fetch lwState [lwLine] = some (true, c') ∧
      c'.registerfile = lwState.registerfile.set 8 77 ∧
      c'.touched_register = (true, 8) ∧ c'.d_mem = lwState.d_mem ∧
      memoryWasTouched c' = false ∧ c'.pc = 4 ∧ c'.total_clock_cycles = 1 :=
  lw_cycle lwState [lwLine] lwLine ⟨35, 0, 8, 0, 0, 0, 0, 524288⟩
    (by decide) (by decide) (by decide) rfl rfl (by decide) (by decide)

/-- C9: one cycle step on an `SW` instruction whose effective address
`A = R[rs] + signext(imm)` satisfies `0 ≤ A < 128` returns `true`, stores the
value of register `rt` in the memory word of index `A / 4`, records that index
as the touched memory word, leaves every other memory word and all registers
unchanged with the register flag clear, and adds 4 to `pc` and 1 to the cycle
count. -/
theorem sw_cycle (c : CPU) (file : List (List Char)) (str : List Char) (f : Fields)
    (hc : WellFormed c) (hline : file[(c.pc / 4).toNat]? = some str)
    (hstr : IsInstruction str) (hf : decodeFields str = some f)
    (hop : f.opcode = 43)
    (hA0 : 0 ≤ c.reg f.rs + signext16 f.imm) (hA1 : c.reg f.rs + signext16 f.imm < 128) :
    ∃ c', fetch c file = some (true, c') ∧
      c'.d_mem = c.d_mem.set ((c.reg f.rs + signext16 f.imm) / 4).toNat (c.reg f.rt) ∧
      c'.touched_memory = (true, (c.reg f.rs + signext16 f.imm) / 4) ∧
      c'.registerfile = c.registerfile ∧ registerWasTouched c' = false ∧
      c'.pc = wrap32 (c.pc + 4) ∧
      c'.total_clock_cycles = wrap32 (c.total_clock_cycles + 1) := by
  have e : Int.tdiv (c.reg f.rs + signext16 f.imm) 4 = (c.reg f.rs + signext16 f.imm) / 4 :=
    Int.tdiv_eq_ediv hA0 (by norm_num)
  obtain ⟨c', h⟩ := sw_step c file str f hc hline hstr hf hop (by omega) hA1
  rw [e] at h
  exact ⟨c', h⟩

/-- C9, witness of the specification: `SW $t0, 28($zero)` with `$t0 = 99` gives
`DataMemory[7] = 99`, touched memory index 7 and cycle count 1. -/
theorem sw_cycle_witness :
    ∃ c', fetch swState [swLine] = some (true, c') ∧
      c'.d_mem = swState.d_mem.set 7 99 ∧ c'.touched_memory = (true, 7) ∧
      c'.registerfile = swState.registerfile ∧ registerWasTouched c' = false ∧
      c'.pc = 4 ∧ c'.total_clock_cycles = 1 :=
  sw_cycle swState [swLine] swLine ⟨43, 0, 8, 0, 0, 28, 28, 524316⟩
    (by decide) (by decide) (by decide) rfl rfl (by decide) (by decide)

/-- C10: after a cycle step that returns `true`, the two touched flags are
never both set; if the register flag is clear the register file is the one
before the cycle, and if it is set every register other than the recorded one
is unchanged; likewise for data memory and the memory flag; and the outcome
does not depend on the flags the previous cycle left behind. -/
theorem touched_frame (c c' : CPU) (file : List (List Char))
    (h : fetch c file = some (true, c')) :
    ¬ (registerWasTouched c' = true ∧ memoryWasTouched c' = true) ∧
    (registerWasTouched c' = false → c'.registerfile = c.registerfile) ∧
    (registerWasTouched c' = true → ∀ i, i ≠ c'.touched_register.2 →
      vecGet c'.registerfile i = vecGet c.registerfile i) ∧
    (memoryWasTouched c' = false → c'.d_mem = c.d_mem) ∧
    (memoryWasTouched c' = true → ∀ i, i ≠ c'.touched_memory.2 →
      vecGet c'.d_mem i = vecGet c.d_mem i) ∧
    (∀ b1 b2 : Bool, fetch { c with touched_register := (b1, c.touched_register.2),
                                    touched_memory := (b2, c.touched_memory.2) } file
      = some (true, c')) := by
  have he := fetch_effect c c' file h
  unfold registerWasTouched memoryWasTouched
  refine ⟨?_, ?_, ?_, ?_, ?_, ?_⟩
  · rcases he with ⟨h1, h2, -, -⟩ | ⟨h1, h2, -, -⟩ | ⟨h1, h2, -, -⟩ <;> simp [h1, h2]
  · intro ht
    rcases he with ⟨h1, h2, h3, -⟩ | ⟨h1, h2, -, -⟩ | ⟨h1, h2, h3, -⟩
    · exact h3
    · rw [ht] at h1; cases h1
    · exact h3
  · intro ht i hi
    rcases he with ⟨h1, h2, -, -⟩ | ⟨h1, h2, -, v, hv⟩ | ⟨h1, h2, -, -⟩
    · rw [ht] at h1; cases h1
    · exact vecSet_get_ne _ _ _ _ _ hv hi
    · rw [ht] at h1; cases h1
  · intro ht
    rcases he with ⟨h1, h2, -, h4⟩ | ⟨h1, h2, h3, -⟩ | ⟨h1, h2, -, -⟩
    · exact h4
    · exact h3
    · rw [ht] at h2; cases h2
  · intro ht i hi
    rcases he with ⟨h1, h2, -, -⟩ | ⟨h1, h2, -, -⟩ | ⟨h1, h2, -, v, hv⟩
    · rw [ht] at h2; cases h2
    · rw [ht] at h2; cases h2
    · exact vecSet_get_ne _ _ _ _ _ hv hi
  · intro b1 b2
    rw [← h]
    rfl

/-- C10, an instance: the store `SW $t0, 28($zero)` sets only the memory flag,
changes only the memory word 7 and leaves the register file as it was. -/
theorem touched_frame_witness :
    ∃ c', fetch swState [swLine] = some (true, c') ∧
      ¬ (registerWasTouched c' = true ∧ memoryWasTouched c' = true) ∧
      (registerWasTouched c' = false → c'.registerfile = swState.registerfile) ∧
      (registerWasTouched c' = true → ∀ i, i ≠ c'.touched_register.2 →
        vecGet c'.registerfile i = vecGet swState.registerfile i) ∧
      (memoryWasTouched c' = false → c'.d_mem = swState.d_mem) ∧
      (memoryWasTouched c' = true → ∀ i, i ≠ c'.touched_memory.2 →
        vecGet c'.d_mem i = vecGet swState.d_mem i) ∧
      (∀ b1 b2 : Bool,
        fetch { swState with touched_register := (b1, swState.touched_register.2),
                             touched_memory := (b2, swState.touched_memory.2) } [swLine]
          = some (true, c')) :=
  ⟨_, rfl, touched_frame swState _ [swLine] rfl⟩

/-- C11 (evaluation at the failing input): the states left on a fresh CPU by
`LW $t0, 0($zero)` and by `ADD $t0, $zero, $zero` agree on `pc`, registers, data
memory, cycle count and touched records and differ in the `memtoreg` signal;
the `JAL 2` that follows leaves 999 in register 31 and cycle count 3 in the
first, and 8 in register 31 and cycle count 2 in the second. -/
theorem stale_memtoreg_leaks_into_jal :
    fetch CPU.new lwJalProgram = some (true, afterLwState) ∧
    fetch CPU.new [addT0Line, jalLine] = some (true, afterAddState) ∧
    afterLwState.pc = afterAddState.pc ∧
    afterLwState.registerfile = afterAddState.registerfile ∧
    afterLwState.d_mem = afterAddState.d_mem ∧
    afterLwState.total_clock_cycles = afterAddState.total_clock_cycles ∧
    afterLwState.touched_register = afterAddState.touched_register ∧
    afterLwState.touched_memory = afterAddState.touched_memory ∧
    afterLwState.memtoreg = 1 ∧ afterAddState.memtoreg = 0 ∧
    ∃ cA cB, fetch afterLwState lwJalProgram = some (true, cA) ∧
      fetch afterAddState [addT0Line, jalLine] = some (true, cB) ∧
      cA.reg 31 = 999 ∧ cB.reg 31 = 8 ∧
      cA.total_clock_cycles = 3 ∧ cB.total_clock_cycles = 2 ∧ cA.pc = 8 ∧ cB.pc = 8 := by
  refine ⟨rfl, rfl, by decide, by decide, by decide, by decide, by decide, by decide,
    by decide, by decide, _, _, rfl, rfl, ?_, ?_, ?_, ?_, ?_, ?_⟩ <;> decide

/-- C12 (counterexample): on a freshly constructed CPU, whatever the two members
the constructor leaves unassigned hold, a line with opcode 1 does not make the
cycle step fail; `controlunit` returns the state it was given and the step
returns `true`, with `pc = 4` and cycle count 1. -/
theorem unsupported_opcode_step_runs :
    (controlunit (CPU.construct false false) 1 = CPU.construct false false ∧
      ∃ c', fetch (CPU.construct false false) [opcodeOneLine] = some (true, c') ∧ c'.pc = 4 ∧
        c'.total_clock_cycles = 1) ∧
    (controlunit (CPU.construct false true) 1 = CPU.construct false true ∧
      ∃ c', fetch (CPU.construct false true) [opcodeOneLine] = some (true, c') ∧ c'.pc = 4 ∧
        c'.total_clock_cycles = 1) ∧
    (controlunit (CPU.construct true false) 1 = CPU.construct true false ∧
      ∃ c', fetch (CPU.construct true false) [opcodeOneLine] = some (true, c') ∧ c'.pc = 4 ∧
        c'.total_clock_cycles = 1) ∧
    (controlunit (CPU.construct true true) 1 = CPU.construct true true ∧
      ∃ c', fetch (CPU.construct true true) [opcodeOneLine] = some (true, c') ∧ c'.pc = 4 ∧
        c'.total_clock_cycles = 1) := by
  refine ⟨⟨rfl, _, rfl, ?_, ?_⟩, ⟨rfl, _, rfl, ?_, ?_⟩, ⟨rfl, _, rfl, ?_, ?_⟩,
    ⟨rfl, _, rfl, ?_, ?_⟩⟩ <;> decide

/-- C12 (amended): for a line whose opcode is none of 0, 35, 43, 4, 2 and 3,
fetched at index `pc / 4` in a state with `pc ≥ 0`, `controlunit` reports no
error and returns the state unchanged, and the cycle step carries on with the
signals it found: whenever the step returns, it returns `true` and every
control signal still has the value it had before the step; and if the signals
of the state are already those `controlunit` sets for an opcode `k`, the step
has the same outcome (the same returned flag and state, or equally no defined
result) as on the same line with its opcode field replaced by `k`. -/
theorem unsupported_opcode_carries_on (c : CPU) (file : List (List Char)) (str : List Char)
    (f : Fields) (hpc : 0 ≤ c.pc) (hline : file[(c.pc / 4).toNat]? = some str)
    (hf : decodeFields str = some f)
    (h : f.opcode ≠ 0 ∧ f.opcode ≠ 35 ∧ f.opcode ≠ 43 ∧ f.opcode ≠ 4 ∧ f.opcode ≠ 2 ∧
      f.opcode ≠ 3) :
    controlunit c f.opcode = c ∧
    (∀ (b : Bool) (c' : CPU), fetch c file = some (b, c') →
      b = true ∧ controlSignals c' = controlSignals c) ∧
    (∀ (k : Int) (file2 : List (List Char)) (str2 : List Char),
      controlunit c k = c → file2[(c.pc / 4).toNat]? = some str2 →
      decodeFields str2 = some { f with opcode := k } → fetch c file = fetch c file2) := by
  have hcu := controlunit_other c f.opcode h
  refine ⟨hcu, ?_, ?_⟩
  · intro b c' hb
    have hs := fetch_signals c c' file str f b hpc hline hf hb
    rw [hcu] at hs
    exact hs
  · intro k file2 str2 hk hline2 hf2
    rw [fetch_line c file str f hpc hline hf, fetch_line c file2 str2 _ hpc hline2 hf2]
    have e := decodeBody_opcode
      { resetTouchedMemory (resetTouchedRegister c) with next_pc := wrap32 (c.pc + 4) } f k
      (controlunit_other _ f.opcode h)
      (by simp only [resetTouchedMemory, resetTouchedRegister]; rw [controlunit_comm, hk])
    rw [e]

/-- C12 (amended), an instance: in the state left by an R-type instruction the
line `opcodeOneAddLine`, whose opcode is 1, is executed exactly as
`ADD $t3, $t1, $t2`, the same line with opcode 0: the step returns `true` with
`$t3 = 12`, `pc = 8`, cycle count 2 and the control signals unchanged. -/
theorem unsupported_opcode_carries_on_witness :
    controlunit afterRtypeState 1 = afterRtypeState ∧
    fetch afterRtypeState [addT0Line, opcodeOneAddLine]
      = fetch afterRtypeState [addT0Line, addLine] ∧
    ∃ c', fetch afterRtypeState [addT0Line, opcodeOneAddLine] = some (true, c') ∧
      controlSignals c' = controlSignals afterRtypeState ∧
      c'.reg 11 = 12 ∧ c'.pc = 8 ∧ c'.total_clock_cycles = 2 :=
  have h := unsupported_opcode_carries_on afterRtypeState [addT0Line, opcodeOneAddLine]
    opcodeOneAddLine ⟨1, 9, 10, 11, 0, 32, 22560, 19552288⟩ (by decide) rfl rfl (by decide)
  ⟨h.1, h.2.2 0 [addT0Line, addLine] addLine rfl rfl rfl,
    _, rfl, (h.2.1 true _ rfl).2, by decide, by decide, by decide⟩

/-- C13: for a state with `pc ≥ 0` and a program of `n` lines, `fetch` returns
`false` exactly when `pc / 4 ≥ n`; it then leaves `pc`, the registers, data
memory and the cycle count as they were and only clears the touched flags; when
it returns `true`, the program has a line of index `pc / 4`, `decode` was run on
that line (after the touched flags were cleared and `next_pc` set to `pc + 4`)
and the state returned is the state `decode` left, with `pc` and the cycle
count updated from it as `fetch` does; so the outcome is the same on every
program with that line at that index. -/
theorem fetch_termination (c : CPU) (file : List (List Char)) (hpc : 0 ≤ c.pc) :
    ((∃ c', fetch c file = some (false, c')) ↔ (file.length : Int) ≤ c.pc / 4) ∧
    (∀ c', fetch c file = some (false, c') →
      c' = resetTouchedMemory (resetTouchedRegister c) ∧
      c'.pc = c.pc ∧ c'.registerfile = c.registerfile ∧ c'.d_mem = c.d_mem ∧
      c'.total_clock_cycles = c.total_clock_cycles ∧
      registerWasTouched c' = false ∧ memoryWasTouched c' = false) ∧
    (∀ c', fetch c file = some (true, c') →
      ∃ str, file[(c.pc / 4).toNat]? = some str ∧
        ∃ c2, decode { resetTouchedMemory (resetTouchedRegister c) with
                       next_pc := wrap32 (c.pc + 4) } str = some c2 ∧
        c' = (if c2.regtopc ≠ 0 then
                { c2 with total_clock_cycles := wrap32 (c2.total_clock_cycles + 1) }
              else if c2.jump ≠ 0 then
                if c2.jlink = 0 then
                  { c2 with pc := c2.jump_target,
                            total_clock_cycles := wrap32 (c2.total_clock_cycles + 1) }
                else c2
              else if c2.alu_zero ≠ 0 ∧ c2.branch ≠ 0 then { c2 with pc := c2.branch_target }
              else { c2 with pc := c2.next_pc }) ∧
        c'.registerfile = c2.registerfile ∧ c'.d_mem = c2.d_mem ∧
        c'.touched_register = c2.touched_register ∧ c'.touched_memory = c2.touched_memory ∧
        ∀ file2 : List (List Char), file2[(c.pc / 4).toNat]? = some str →
          fetch c file2 = some (true, c')) := by
  have hread : ∀ fl : List (List Char),
      readLines (Int.tdiv (resetTouchedMemory (resetTouchedRegister c)).pc 4 + 1).toNat fl []
        = fl[(c.pc / 4).toNat]? := fun fl => readLines_of_nonneg c.pc hpc fl
  have hidx : ((c.pc / 4).toNat : Int) = c.pc / 4 := Int.toNat_of_nonneg (by omega)
  cases hl : file[(c.pc / 4).toNat]? with
  | none =>
    have hlen : file.length ≤ (c.pc / 4).toNat := List.getElem?_eq_none_iff.1 hl
    have hf : fetch c file = some (false, resetTouchedMemory (resetTouchedRegister c)) := by
      simp only [fetch, hread, hl]
    refine ⟨⟨fun _ => by omega, fun _ => ⟨_, hf⟩⟩, ?_, ?_⟩
    · intro c' h
      rw [hf] at h
      cases h
      exact ⟨rfl, rfl, rfl, rfl, rfl, rfl, rfl⟩
    · intro c' h
      rw [hf] at h
      cases h
  | some str =>
    have hlt : (c.pc / 4).toNat < file.length := by
      by_contra hcon
      rw [List.getElem?_eq_none_iff.2 (by omega)] at hl
      cases hl
    have hstep : ∀ fl : List (List Char), fl[(c.pc / 4).toNat]? = some str →
        fetch c fl = fetch c file := by
      intro fl hfl
      simp only [fetch, hread, hl, hfl]
    have hnot : ∀ c', fetch c file ≠ some (false, c') := by
      intro c' h
      simp only [fetch, hread, hl] at h
      split at h
      · cases h
      · split_ifs at h <;> cases h
    refine ⟨⟨fun ⟨c', h⟩ => absurd h (hnot c'), fun h => by omega⟩, ?_, ?_⟩
    · intro c' h
      exact absurd h (hnot c')
    · intro c' h
      refine ⟨str, rfl, ?_⟩
      have h2 := h
      simp only [fetch, hread, hl] at h2
      split at h2
      · cases h2
      · rename_i c2 hd
        refine ⟨c2, hd, ?_, ?_, ?_, ?_, ?_, fun file2 h3 => by rw [hstep file2 h3]; exact h⟩
        all_goals
          split_ifs at h2 ⊢ <;> cases h2 <;> rfl

/-- C13, an instance with both outcomes, in the state with `pc = 4`: on the
two-line program `J 4; J 4` the step does not return `false`; it returns `true`
with `pc = 16`, the line of index `pc / 4 = 1` having been decoded; on the
one-line program `J 4`, where 1 is not the index of a line, it returns `false`
and leaves `pc`, registers, data memory and cycle count as they were. -/
theorem fetch_termination_witness :
    (¬ ∃ c', fetch jState [jLine, jLine] = some (false, c')) ∧
    (∃ c', fetch jState [jLine, jLine] = some (true, c') ∧ c'.pc = 16 ∧
      ∃ str, [jLine, jLine][(jState.pc / 4).toNat]? = some str ∧
        ∃ c2, decode { resetTouchedMemory (resetTouchedRegister jState) with
                       next_pc := wrap32 (jState.pc + 4) } str = some c2 ∧
        c' = (if c2.regtopc ≠ 0 then
                { c2 with total_clock_cycles := wrap32 (c2.total_clock_cycles + 1) }
              else if c2.jump ≠ 0 then
                if c2.jlink = 0 then
                  { c2 with pc := c2.jump_target,
                            total_clock_cycles := wrap32 (c2.total_clock_cycles + 1) }
                else c2
              else if c2.alu_zero ≠ 0 ∧ c2.branch ≠ 0 then { c2 with pc := c2.branch_target }
              else { c2 with pc := c2.next_pc }) ∧
        c'.registerfile = c2.registerfile ∧ c'.d_mem = c2.d_mem ∧
        c'.touched_register = c2.touched_register ∧ c'.touched_memory = c2.touched_memory ∧
        ∀ file2 : List (List Char), file2[(jState.pc / 4).toNat]? = some str →
          fetch jState file2 = some (true, c')) ∧
    (∃ c', fetch jState [jLine] = some (false, c') ∧ c'.pc = jState.pc ∧
      c'.registerfile = jState.registerfile ∧ c'.d_mem = jState.d_mem ∧
      c'.total_clock_cycles = jState.total_clock_cycles ∧
      registerWasTouched c' = false ∧ memoryWasTouched c' = false) :=
  ⟨fun h => absurd ((fetch_termination jState [jLine, jLine] (by decide)).1.1 h) (by decide),
    ⟨_, rfl, by decide, (fetch_termination jState [jLine, jLine] (by decide)).2.2 _ rfl⟩,
    ⟨_, rfl, ((fetch_termination jState [jLine] (by decide)).2.1 _ rfl).2⟩⟩

/-- C14: register 0 is an ordinary writable register.  On the fresh CPU
pre-loaded with `$t1 = 5` and `$t2 = 7` register 0 holds 0, and after
`ADD $zero, $t1, $t2` it holds 12 and is the touched register; likewise
`LW $zero, 0($zero)` with the memory word 0 holding 77 leaves 77 in register 0. -/
theorem register_zero_writable :
    (addState.reg 0 = 0 ∧
      ∃ c', fetch addState [addToZeroLine] = some (true, c') ∧ c'.reg 0 = 12 ∧
        c'.reg 0 ≠ 0 ∧ c'.touched_register = (true, 0)) ∧
    (lwState.reg 0 = 0 ∧
      ∃ c', fetch lwState [lwToZeroLine] = some (true, c') ∧ c'.reg 0 = 77 ∧
        c'.reg 0 ≠ 0 ∧ c'.touched_register = (true, 0)) := by
  refine ⟨⟨by decide, _, rfl, ?_, ?_, ?_⟩, ⟨by decide, _, rfl, ?_, ?_, ?_⟩⟩ <;> decide

/-- C15: on a freshly constructed CPU, possibly seeded through
`updateRegisterFile` and `updateMemory`, a program whose first line is a `JAL`
with address field `a` leaves after one cycle step `$ra = 4`, `pc = a << 2`,
cycle count 1, register 31 as the touched register and data memory
untouched. -/
theorem jal_on_fresh_cpu (c : CPU) (file : List (List Char)) (str : List Char) (f : Fields)
    (hs : Seeded c) (hline : file[0]? = some str)
    (hstr : IsInstruction str) (hf : decodeFields str = some f) (hop : f.opcode = 3) :
    ∃ c', fetch c file = some (true, c') ∧ c'.reg 31 = 4 ∧
      c'.registerfile = c.registerfile.set 31 4 ∧
      c'.pc = ((f.addr.toNat <<< 2 : Nat) : Int) ∧ c'.pc = f.addr * 4 ∧
      c'.total_clock_cycles = 1 ∧ c'.touched_register = (true, 31) ∧
      c'.d_mem = c.d_mem ∧ memoryWasTouched c' = false := by
  obtain ⟨hwf, hpc, hcyc, hmt⟩ := seeded_inv c hs
  obtain ⟨-, -, -, -, -, -, -, ⟨ad0, ad1⟩⟩ := decodeFields_bounds str f hstr hf
  have hlen : c.registerfile.length = 32 := hwf.1
  obtain ⟨c', h1, h2, h3, h4, h5, h6, -⟩ :=
    jal_cycle c file str f hwf (by rw [hpc]; exact hline) hstr hf hop
  obtain ⟨h7, h8⟩ := h6 hmt
  rw [hpc] at h2 h7
  rw [hcyc] at h8
  have e4 : wrap32 (0 + 4) = 4 := by decide
  have e1 : wrap32 (0 + 1) = 1 := by decide
  rw [e4] at h7
  rw [e1] at h8
  refine ⟨c', h1, ?_, h7, ?_, by simpa using h2, h8, h4, h3, h5⟩
  · simp [CPU.reg, vecGet, h7, hlen]
  · rw [h2, Nat.shiftLeft_eq]
    norm_num
    omega

/-- C15, witness of the specification: `JAL 2` on a fresh CPU gives `$ra = 4`
and `pc = 8`. -/
theorem jal_on_fresh_cpu_witness :
    ∃ c', fetch CPU.new [jalLine] = some (true, c') ∧ c'.reg 31 = 4 ∧
      c'.registerfile = CPU.new.registerfile.set 31 4 ∧
      c'.pc = (((2 : Int).toNat <<< 2 : Nat) : Int) ∧ c'.pc = 8 ∧
      c'.total_clock_cycles = 1 ∧ c'.touched_register = (true, 31) ∧
      c'.d_mem = CPU.new.d_mem ∧ memoryWasTouched c' = false :=
  jal_on_fresh_cpu CPU.new [jalLine] jalLine ⟨3, 0, 0, 0, 0, 2, 2, 2⟩
    (Seeded.fresh false false) rfl (by decide) rfl rfl

/-- C16: for `0 ≤ imm ≤ 65535`, `signExtended` returns `imm` when
`imm < 32768` and `imm - 65536` otherwise, the two's-complement value of the
16-bit pattern; in particular `0x8000` gives -32768, `0x0001` gives 1 and
`0xFFFF` gives -1. -/
theorem signExtended_twos_complement (imm : Int) (h0 : 0 ≤ imm) (h1 : imm ≤ 65535) :
    signExtended imm = some (if imm < 32768 then imm else imm - 65536) ∧
    signExtended 0x8000 = some (-32768) ∧ signExtended 0x0001 = some 1 ∧
    signExtended 0xFFFF = some (-1) := by
  refine ⟨?_, by decide, by decide, by decide⟩
  have := signExtended_eq imm h0 (by omega)
  simpa [signext16] using this

/-- C16, an instance: the pattern `0x8000`. -/
theorem signExtended_twos_complement_witness :
    signExtended 0x8000 = some (if (0x8000 : Int) < 32768 then 0x8000 else 0x8000 - 65536) ∧
    signExtended 0x8000 = some (-32768) ∧ signExtended 0x0001 = some 1 ∧
    signExtended 0xFFFF = some (-1) :=
  signExtended_twos_complement 0x8000 (by decide) (by decide)

/-- C17: for every 32-bit word `w`, written as the 32-character string of its
bits with the most significant first, the decoder's fields are the bit slices
of `w`: opcode = bits 31..26, rs = bits 25..21, rt = bits 20..16, rd = bits
15..11, shamt = bits 10..6, funct = bits 5..0, immediate = bits 15..0 and
address = bits 25..0, all unsigned; and on every string `s` of `'0'`/`'1'` of
length `n ≤ 31` (so in particular `n ≤ 26`) `convertBinaryStrToInt` returns the
sum of `s[i] * 2^(n-1-i)`. -/
theorem decoder_bit_slices (w : Int) (h0 : 0 ≤ w) (h1 : w < 4294967296) :
    decodeFields (bitsetToString 32 w) = some
      { opcode := w / 67108864, rs := w / 2097152 % 32, rt := w / 65536 % 32,
        rd := w / 2048 % 32, shamt := w / 64 % 32, funct := w % 64,
        imm := w % 65536, addr := w % 67108864 } ∧
    (∀ s : List Char, (∀ ch ∈ s, ch = '0' ∨ ch = '1') → s.length ≤ 31 →
      convertBinaryStrToInt s = some (∑ i ∈ Finset.range s.length,
        (if s[i]? = some '1' then 1 else 0) * 2 ^ (s.length - 1 - i))) := by
  constructor
  · have hstr := isInstruction_bitsetToString w
    have hlen := length_bitsetToString 32 w
    have hv : bitsValue (bitsetToString 32 w) = w := by
      rw [bitsValue_bitsetToString]
      norm_num
      omega
    have s1 := bitsValue_slice (bitsetToString 32 w) 0 6 (by omega)
    have s2 := bitsValue_slice (bitsetToString 32 w) 6 5 (by omega)
    have s3 := bitsValue_slice (bitsetToString 32 w) 11 5 (by omega)
    have s4 := bitsValue_slice (bitsetToString 32 w) 16 5 (by omega)
    have s5 := bitsValue_slice (bitsetToString 32 w) 21 5 (by omega)
    have s6 := bitsValue_slice (bitsetToString 32 w) 26 6 (by omega)
    have s7 := bitsValue_slice (bitsetToString 32 w) 16 16 (by omega)
    have s8 := bitsValue_slice (bitsetToString 32 w) 6 26 (by omega)
    rw [hlen, hv] at s1 s2 s3 s4 s5 s6 s7 s8
    norm_num at s1 s2 s3 s4 s5 s6 s7 s8
    have e : w / 67108864 % 64 = w / 67108864 := by omega
    simp only [decodeFields_eq _ hstr, List.drop_zero, s1, s2, s3, s4, s5, s6, s7, s8, e]
  · intro s hs hl
    rw [convertBinaryStrToInt_bits s hs hl, bitsValue_eq_sum]

/-- C17, an instance: the word `0x012A5820` of `ADD $t3, $t1, $t2`. -/
theorem decoder_bit_slices_witness :
    decodeFields (bitsetToString 32 19552288) = some
      { opcode := 19552288 / 67108864, rs := 19552288 / 2097152 % 32,
        rt := 19552288 / 65536 % 32, rd := 19552288 / 2048 % 32,
        shamt := 19552288 / 64 % 32, funct := 19552288 % 64,
        imm := 19552288 % 65536, addr := 19552288 % 67108864 } ∧
    (∀ s : List Char, (∀ ch ∈ s, ch = '0' ∨ ch = '1') → s.length ≤ 31 →
      convertBinaryStrToInt s = some (∑ i ∈ Finset.range s.length,
        (if s[i]? = some '1' then 1 else 0) * 2 ^ (s.length - 1 - i))) :=
  decoder_bit_slices 19552288 (by decide) (by decide)

/-- C18: store-then-load round trip.  If `SW rt, imm(rs)` at `pc` has effective
address `A` in `0 ≤ A < 128` and the `LW rt2, imm2(rs2)` at `pc + 4` has
effective address `A2` in `0 ≤ A2 < 128` with `A2 / 4 = A / 4` (in particular
the same `rs` and `imm`), the two consecutive cycle steps both return `true`,
leave in register `rt2` the value register `rt` held before the store, and
increase the cycle count by 2. -/
theorem store_then_load (c : CPU) (file : List (List Char)) (str1 str2 : List Char)
    (f1 f2 : Fields) (hc : WellFormed c) (hpc : c.pc + 4 < 2147483648)
    (hline1 : file[(c.pc / 4).toNat]? = some str1)
    (hline2 : file[((c.pc + 4) / 4).toNat]? = some str2)
    (hstr1 : IsInstruction str1) (hf1 : decodeFields str1 = some f1) (hop1 : f1.opcode = 43)
    (hstr2 : IsInstruction str2) (hf2 : decodeFields str2 = some f2) (hop2 : f2.opcode = 35)
    (hA0 : 0 ≤ c.reg f1.rs + signext16 f1.imm) (hA1 : c.reg f1.rs + signext16 f1.imm < 128)
    (hB0 : 0 ≤ c.reg f2.rs + signext16 f2.imm) (hB1 : c.reg f2.rs + signext16 f2.imm < 128)
    (hidx : (c.reg f2.rs + signext16 f2.imm) / 4 = (c.reg f1.rs + signext16 f1.imm) / 4) :
    ∃ c1 c2, fetch c file = some (true, c1) ∧ fetch c1 file = some (true, c2) ∧
      c2.reg f2.rt = c.reg f1.rt ∧
      c2.total_clock_cycles = wrap32 (c.total_clock_cycles + 2) := by
  obtain ⟨-, -, ⟨rt0, rt1⟩, -, -, -, -, -⟩ := decodeFields_bounds str2 f2 hstr2 hf2
  obtain ⟨c1, s1, s2, s3, s4, s5, s6, s7⟩ :=
    sw_step c file str1 f1 hc hline1 hstr1 hf1 hop1 (by omega) hA1
  have hc' := hc
  obtain ⟨hrl, hml, hrr, hp0, hp1⟩ := hc'
  simp only [NUM_REGS, NUM_MEMS] at hrl hml
  have hpc1 : c1.pc = c.pc + 4 := by rw [s6]; exact wrap32_eq_self (by omega) (by omega)
  have hreg : ∀ i, c1.reg i = c.reg i := fun i => by simp [CPU.reg, s4]
  have hc1 : WellFormed c1 := by
    refine ⟨by rw [s4]; exact hc.1, ?_, by rw [s4]; exact hrr, by omega, by omega⟩
    rw [s2, List.length_set]
    exact hc.2.1
  have eA : Int.tdiv (c.reg f1.rs + signext16 f1.imm) 4 = (c.reg f1.rs + signext16 f1.imm) / 4 :=
    Int.tdiv_eq_ediv hA0 (by norm_num)
  have eB : Int.tdiv (c.reg f2.rs + signext16 f2.imm) 4 = (c.reg f2.rs + signext16 f2.imm) / 4 :=
    Int.tdiv_eq_ediv hB0 (by norm_num)
  obtain ⟨c2, l1, l2, l3, l4, l5, l6, l7⟩ :=
    lw_step c1 file str2 f2 hc1 (by rw [hpc1]; exact hline2) hstr2 hf2 hop2
      (by rw [hreg]; omega) (by rw [hreg]; exact hB1)
  refine ⟨c1, c2, s1, l1, ?_, ?_⟩
  · rw [hreg, eB, hidx] at l2
    rw [eA] at s2
    have hi : ((c.reg f1.rs + signext16 f1.imm) / 4).toNat < c.d_mem.length := by omega
    have hw : c1.word ((c.reg f1.rs + signext16 f1.imm) / 4) = c.reg f1.rt := by
      have hq : 0 ≤ (c.reg f1.rs + signext16 f1.imm) / 4 := by omega
      simp [CPU.word, vecGet, s2, hi, hq]
    rw [hw] at l2
    have hj : f2.rt.toNat < c1.registerfile.length := by rw [s4]; omega
    simp [CPU.reg, vecGet, l2, rt0, hj]
  · rw [l7, s7]
    unfold wrap32
    omega

/-- C18, an instance: `SW $t0, 28($zero)` followed by `LW $t0, 28($zero)` on
the fresh CPU pre-loaded with `$t0 = 99`. -/
theorem store_then_load_witness :
    ∃ c1 c2, fetch swState [swLine, lwBackLine] = some (true, c1) ∧
      fetch c1 [swLine, lwBackLine] = some (true, c2) ∧
      c2.reg 8 = swState.reg 8 ∧
      c2.total_clock_cycles = wrap32 (swState.total_clock_cycles + 2) :=
  store_then_load swState [swLine, lwBackLine] swLine lwBackLine
    ⟨43, 0, 8, 0, 0, 28, 28, 524316⟩ ⟨35, 0, 8, 0, 0, 28, 28, 524316⟩
    (by decide) (by decide) (by decide) (by decide) (by decide) rfl rfl (by decide) rfl rfl
    (by decide) (by decide) (by decide) (by decide) (by decide)

/-- C19: for a state with `0 ≤ pc < 2^31` and `pc` divisible by 4, one cycle
step on a supported instruction other than `JR` (R-type ALU operation, `LW`,
`SW`, `BEQ` taken or not, `J`, `JAL`) returns `true` and leaves `pc` divisible
by 4; `JR` can break this: on the fresh CPU pre-loaded with `$ra = 6`,
`JR $ra` gives `pc = 6`. -/
theorem pc_alignment (c : CPU) (file : List (List Char)) (str : List Char) (f : Fields)
    (hc : WellFormed c) (hal : c.pc % 4 = 0) (hline : file[(c.pc / 4).toNat]? = some str)
    (hstr : IsInstruction str) (hf : decodeFields str = some f) (hs : Supported c f)
    (hnjr : ¬ (f.opcode = 0 ∧ f.funct = 8)) :
    (∃ c', fetch c file = some (true, c') ∧ c'.pc % 4 = 0) ∧
    (WellFormed jrOddState ∧ jrOddState.pc % 4 = 0 ∧
      ∃ c', fetch jrOddState [jrLine] = some (true, c') ∧ c'.pc = 6 ∧ c'.pc % 4 ≠ 0) := by
  constructor
  · obtain ⟨c', h1, h2, -⟩ := supported_step c file str f hc hline hstr hf hs
    refine ⟨c', h1, ?_⟩
    rcases h2 with h | h | h | ⟨h3, h4, -⟩
    · rw [h]; unfold wrap32; omega
    · rw [h]; unfold wrap32; omega
    · rw [h]; omega
    · exact absurd ⟨h3, h4⟩ hnjr
  · refine ⟨by decide, by decide, _, rfl, ?_, ?_⟩ <;> decide

/-- C19, an instance: `ADD $t3, $t1, $t2` at `pc = 0`. -/
theorem pc_alignment_witness :
    (∃ c', fetch addState [addLine] = some (true, c') ∧ c'.pc % 4 = 0) ∧
    (WellFormed jrOddState ∧ jrOddState.pc % 4 = 0 ∧
      ∃ c', fetch jrOddState [jrLine] = some (true, c') ∧ c'.pc = 6 ∧ c'.pc % 4 ≠ 0) :=
  pc_alignment addState [addLine] addLine ⟨0, 9, 10, 11, 0, 32, 22560, 19552288⟩
    (by decide) (by decide) (by decide) (by decide) rfl (by decide) (by decide)

/-- C20: one cycle step on a supported instruction with in-range memory index
returns `true` and increases the cycle count by 1 or by 2 (32-bit `int` sums),
and by exactly 1 when the instruction is not `JAL`; when the counter does not
overflow the new count is therefore at least the old one plus 1 and at most the
old one plus 2. -/
theorem cycle_count_step (c : CPU) (file : List (List Char)) (str : List Char) (f : Fields)
    (hc : WellFormed c) (hline : file[(c.pc / 4).toNat]? = some str)
    (hstr : IsInstruction str) (hf : decodeFields str = some f) (hs : Supported c f) :
    ∃ c', fetch c file = some (true, c') ∧
      (c'.total_clock_cycles = wrap32 (c.total_clock_cycles + 1) ∨
        c'.total_clock_cycles = wrap32 (c.total_clock_cycles + 2)) ∧
      (f.opcode ≠ 3 → c'.total_clock_cycles = wrap32 (c.total_clock_cycles + 1)) ∧
      (-2147483648 ≤ c.total_clock_cycles → c.total_clock_cycles + 2 < 2147483648 →
        c.total_clock_cycles + 1 ≤ c'.total_clock_cycles ∧
        c'.total_clock_cycles ≤ c.total_clock_cycles + 2) := by
  obtain ⟨c', h1, -, h3⟩ := supported_step c file str f hc hline hstr hf hs
  have e : wrap32 (wrap32 (c.total_clock_cycles + 1) + 1) = wrap32 (c.total_clock_cycles + 2) := by
    unfold wrap32; omega
  refine ⟨c', h1, ?_, ?_, ?_⟩
  · rcases h3 with h | ⟨-, -, h⟩
    · exact Or.inl h
    · exact Or.inr (by rw [h, e])
  · intro hne
    rcases h3 with h | ⟨h, -, -⟩
    · exact h
    · exact absurd h hne
  · intro hlo hhi
    rcases h3 with h | ⟨-, -, h⟩
    · rw [h]; unfold wrap32; omega
    · rw [h, e]; unfold wrap32; omega

/-- C20, an instance where the count grows by 2: the `JAL 2` executed in the
state left by `LW $t0, 0($zero)` takes the cycle count from 1 to 3. -/
theorem cycle_count_step_witness :
    ∃ c', fetch afterLwState lwJalProgram = some (true, c') ∧
      (c'.total_clock_cycles = wrap32 (afterLwState.total_clock_cycles + 1) ∨
        c'.total_clock_cycles = wrap32 (afterLwState.total_clock_cycles + 2)) ∧
      ((3 : Int) ≠ 3 → c'.total_clock_cycles = wrap32 (afterLwState.total_clock_cycles + 1)) ∧
      (-2147483648 ≤ afterLwState.total_clock_cycles →
        afterLwState.total_clock_cycles + 2 < 2147483648 →
        afterLwState.total_clock_cycles + 1 ≤ c'.total_clock_cycles ∧
        c'.total_clock_cycles ≤ afterLwState.total_clock_cycles + 2) :=
  cycle_count_step afterLwState lwJalProgram jalLine ⟨3, 0, 0, 0, 0, 2, 2, 2⟩
    (by decide) (by decide) (by decide) rfl (by decide)

end MipsCpu
